import Mathlib

/-!
Verification of the LoopExecutor leveraged-staking engine.

This file gives a shallow embedding of the LoopExecutor contract
(LoopExecutor.ts): the open-position leverage loop, the close-position
iterative unwind, the fee helper, the validation checks, and the storage
slots. u256 values are modelled as Nat with an explicit 2^256 bound;
SafeMath operations fail (never wrap) exactly as in the source. The
lending pool and token ledger are modelled as an oracle that answers
each external call as a function of the full call trace so far, so the
theorems quantify over every possible pool behaviour. A reverted
invocation rolls back all storage, matching the documented runtime
semantics; the returned trace records the external calls that were made
before the abort.
-/

namespace Looper

/-- Errors of the engine, one per revert site of the source
(plus the arithmetic failures of SafeMath). -/
inductive Err where
  | Paused
  | Reentrant
  | BelowMinimumDeposit
  | LeverageOutOfRange
  | PositionAlreadyActive
  | NoOpenPosition
  | NotPositionOwner
  | HealthFactorTooLow
  | UnwindIncomplete
  | TransferFailed
  | ArithmeticOverflow
  | ArithmeticUnderflow
  | DivisionByZero
  deriving DecidableEq

/-- External calls the contract makes against the token ledger and the
Stash lending pool, as recorded in the call trace. Addresses of the
token and the pool are fixed for the whole invocation, so only the
varying fields are recorded. -/
inductive ExtCall where
  | transferFrom (source dest amount : Nat)
  | transfer (dest amount : Nat)
  | incAllowance (amount : Nat)
  | decAllowance (amount : Nat)
  | deposit (amount : Nat)
  | borrow (amount : Nat)
  | repay (amount : Nat)
  | withdraw (amount : Nat)
  | healthFactor
  | borrowBalance
  | maxBorrowable
  | depositBalance
  deriving DecidableEq

/-- Behaviour of the external world (pool plus token), given as response
functions over the call trace. respNat answers a query whose call is the
last element of the given trace; respOk tells whether a token call
(transfer, transferFrom, allowance change) reports success. -/
structure Env where
  respNat : List ExtCall → Nat
  respOk : List ExtCall → Bool

/-- Persistent storage of the contract: the scalar slots and the two
address-keyed maps, as declared in the source. Addresses are Nat, with 0
the zero (empty) address. -/
structure LoopState where
  paused : Bool
  locked : Bool
  treasury : Nat
  activeUser : Nat
  userDeposits : Nat → Nat
  userDebts : Nat → Nat
  totalFees : Nat

/-- An execution context: current storage plus the trace of external
calls made so far in this invocation. -/
structure Ctx where
  st : LoopState
  tr : List ExtCall

/-- The invocation monad: storage-and-trace passing with abort. On abort
the context records the calls made before the revert; storage read from
an aborted run is never used by the theorems (the runtime rolls it
back). -/
def M (α : Type) : Type := Ctx → Except Err α × Ctx

instance : Monad M where
  pure a := fun c => (Except.ok a, c)
  bind x f := fun c =>
    match x c with
    | (Except.ok a, c') => f a c'
    | (Except.error e, c') => (Except.error e, c')

/-- Abort the invocation with the given error. -/
def M.throw (e : Err) : M α := fun c => (Except.error e, c)

/-- Lift a pure fallible computation (SafeMath) into the monad. -/
def liftE (x : Except Err α) : M α := fun c => (x, c)

theorem M.bind_def (x : M α) (f : α → M β) (c : Ctx) :
    (x >>= f) c =
      match x c with
      | (Except.ok a, c') => f a c'
      | (Except.error e, c') => (Except.error e, c') := rfl

theorem M.pure_def (a : α) (c : Ctx) : (pure a : M α) c = (Except.ok a, c) := rfl

theorem M.throw_def (e : Err) (c : Ctx) : (M.throw e : M α) c = (Except.error e, c) := rfl

theorem liftE_def (x : Except Err α) (c : Ctx) : liftE x c = (x, c) := rfl

-- Storage-slot primitives, one per StoredBoolean / StoredAddress /
-- StoredU256 / AddressMemoryMap access of the source.

def readPaused : M Bool := fun c => (Except.ok c.st.paused, c)

def readLocked : M Bool := fun c => (Except.ok c.st.locked, c)

def writeLocked (b : Bool) : M Unit := fun c =>
  (Except.ok (), ⟨{ c.st with locked := b }, c.tr⟩)

def readTreasury : M Nat := fun c => (Except.ok c.st.treasury, c)

def readActiveUser : M Nat := fun c => (Except.ok c.st.activeUser, c)

def writeActiveUser (a : Nat) : M Unit := fun c =>
  (Except.ok (), ⟨{ c.st with activeUser := a }, c.tr⟩)

def readDeposit (a : Nat) : M Nat := fun c => (Except.ok (c.st.userDeposits a), c)

def writeDeposit (a v : Nat) : M Unit := fun c =>
  (Except.ok (), ⟨{ c.st with userDeposits := Function.update c.st.userDeposits a v }, c.tr⟩)

def readDebt (a : Nat) : M Nat := fun c => (Except.ok (c.st.userDebts a), c)

def writeDebt (a v : Nat) : M Unit := fun c =>
  (Except.ok (), ⟨{ c.st with userDebts := Function.update c.st.userDebts a v }, c.tr⟩)

def readFees : M Nat := fun c => (Except.ok c.st.totalFees, c)

def writeFees (v : Nat) : M Unit := fun c =>
  (Except.ok (), ⟨{ c.st with totalFees := v }, c.tr⟩)

/-- A pool call that returns no data (deposit, borrow, repay, withdraw):
the call is recorded in the trace. -/
def extCall (x : ExtCall) : M Unit := fun c =>
  (Except.ok (), ⟨c.st, c.tr ++ [x]⟩)

/-- A pool query returning a u256 (healthFactor, borrowBalanceOf,
maxBorrowable, depositBalanceOf): the oracle answers as a function of
the trace including this call. -/
def query (env : Env) (x : ExtCall) : M Nat := fun c =>
  (Except.ok (env.respNat (c.tr ++ [x])), ⟨c.st, c.tr ++ [x]⟩)

/-- A token-ledger call checked by the safeTransfer/safeTransferFrom/
safeIncreaseAllowance/safeDecreaseAllowance helpers: on a failure report
the invocation reverts. -/
def tokenCall (env : Env) (x : ExtCall) : M Unit := fun c =>
  if env.respOk (c.tr ++ [x]) then (Except.ok (), ⟨c.st, c.tr ++ [x]⟩)
  else (Except.error Err.TransferFailed, ⟨c.st, c.tr ++ [x]⟩)

-- Constants of the source.

def U256MAX : Nat := 2 ^ 256 - 1

def FEE_BASIS : Nat := 10000

def ENTRY_FEE_BPS : Nat := 50

def EXIT_FEE_BPS : Nat := 50

def MIN_DEPOSIT : Nat := 10000

def MAX_LEVERAGE_E18 : Nat := 3000000000000000000

def MIN_HEALTH_FACTOR_E18 : Nat := 1500000000000000000

def E18 : Nat := 1000000000000000000

def MAX_LOOPS : Nat := 5

def contractAddr : Nat := 1

-- SafeMath: u256 arithmetic that reverts on overflow, underflow and
-- division by zero, never wrapping.

def safeAdd (a b : Nat) : Except Err Nat :=
  if a + b ≤ U256MAX then Except.ok (a + b) else Except.error Err.ArithmeticOverflow

def safeSub (a b : Nat) : Except Err Nat :=
  if b ≤ a then Except.ok (a - b) else Except.error Err.ArithmeticUnderflow

def safeMul (a b : Nat) : Except Err Nat :=
  if a * b ≤ U256MAX then Except.ok (a * b) else Except.error Err.ArithmeticOverflow

def safeDiv (a b : Nat) : Except Err Nat :=
  if b = 0 then Except.error Err.DivisionByZero else Except.ok (a / b)

/-- feeRoundUp of the source: fee rounded UP (ceil) to favour the
protocol, computed as (amount * bps + basis - 1) / basis. -/
def feeRoundUp (amount bps : Nat) : Except Err Nat := do
  let numerator ← safeMul amount bps
  let adj ← safeSub FEE_BASIS 1
  let m ← safeAdd numerator adj
  safeDiv m FEE_BASIS

/-- whenNotPaused of the source. -/
def whenNotPaused : M Unit := do
  let p ← readPaused
  if p then M.throw Err.Paused else pure ()

/-- nonReentrant of the source: revert if the lock is held, else take
it. -/
def nonReentrant : M Unit := do
  let l ← readLocked
  if l then M.throw Err.Reentrant else writeLocked true

/-- releaseGuard of the source. -/
def releaseGuard : M Unit := writeLocked false

/-- enforceHealthFactor of the source: query the pool health factor and
revert when it is below the 1.5e18 minimum. -/
def enforceHealthFactor (env : Env) : M Unit := do
  let hf ← query env ExtCall.healthFactor
  if hf < MIN_HEALTH_FACTOR_E18 then M.throw Err.HealthFactorTooLow else pure ()

/-- The leverage loop body of openPosition, with the remaining iteration
budget as fuel (the source iterates i from 0 to MAX_LOOPS). Arguments
are the running totalDeposited, totalBorrowed and currentAmount. -/
def openLoop (env : Env) (target : Nat) : Nat → Nat → Nat → Nat → M (Nat × Nat)
  | 0, td, tb, _cur => pure (td, tb)
  | Nat.succ fuel, td, tb, cur => do
    if cur = 0 then pure (td, tb) else do
    extCall (ExtCall.deposit cur)
    let td' ← liftE (safeAdd td cur)
    if target ≤ td' then pure (td', tb) else do
    let m ← query env ExtCall.maxBorrowable
    if m = 0 then pure (td', tb) else do
    let remaining ← liftE (safeSub target td')
    let borrowAmount := if m < remaining then m else remaining
    if borrowAmount = 0 then pure (td', tb) else do
    extCall (ExtCall.borrow borrowAmount)
    let tb' ← liftE (safeAdd tb borrowAmount)
    enforceHealthFactor env
    openLoop env target fuel td' tb' borrowAmount

/-- openPosition of the source: pause and reentrancy gates, input
validation, single-position check, token pull, entry fee, allowance
grant, the bounded leverage loop with a health check after every borrow,
a final health check, and the position store. -/
def openPosition (env : Env) (sender amount targetLeverageE18 : Nat) : M Unit := do
  whenNotPaused
  nonReentrant
  if amount < MIN_DEPOSIT then M.throw Err.BelowMinimumDeposit else
  if MAX_LEVERAGE_E18 < targetLeverageE18 then M.throw Err.LeverageOutOfRange else
  if targetLeverageE18 < E18 then M.throw Err.LeverageOutOfRange else do
  let active ← readActiveUser
  if active ≠ 0 then M.throw Err.PositionAlreadyActive else do
  tokenCall env (ExtCall.transferFrom sender contractAddr amount)
  let entryFee ← liftE (feeRoundUp amount ENTRY_FEE_BPS)
  let netDeposit ← liftE (safeSub amount entryFee)
  if 0 < entryFee then do
      let tre ← readTreasury
      tokenCall env (ExtCall.transfer tre entryFee)
      let fees ← readFees
      let fees' ← liftE (safeAdd fees entryFee)
      writeFees fees'
    else pure ()
  tokenCall env (ExtCall.incAllowance U256MAX)
  let num ← liftE (safeMul netDeposit targetLeverageE18)
  let targetTotalDeposit ← liftE (safeDiv num E18)
  let r ← openLoop env targetTotalDeposit MAX_LOOPS 0 0 netDeposit
  enforceHealthFactor env
  writeActiveUser sender
  writeDeposit sender r.1
  writeDebt sender r.2
  releaseGuard

/-- The safe-withdrawal amount computed by each iteration of the unwind
loop of closePosition: half the remaining collateral, or the excess of
collateral over debt when that is larger, clamped to at least one unit
and at most the remaining collateral. -/
def withdrawAmountOf (c d : Nat) : Except Err Nat := do
  let w0 ← safeDiv c 2
  let w1 ←
    if d < c then do
      let excess ← safeSub c d
      pure (if w0 < excess then excess else w0)
    else pure w0
  let w2 := if w1 = 0 then 1 else w1
  pure (if c < w2 then c else w2)

/-- The iterative unwind loop of closePosition: withdraw a safe
fraction, repay as much as possible, repeat while debt and collateral
both remain, bounded by the fuel. Arguments are remainingDebt and
remainingCollateral. -/
def closeLoop (env : Env) : Nat → Nat → Nat → M (Nat × Nat)
  | 0, d, c => pure (d, c)
  | Nat.succ fuel, d, c => do
    if d = 0 then pure (d, c) else
    if c = 0 then pure (d, c) else do
    let w ← liftE (withdrawAmountOf c d)
    extCall (ExtCall.withdraw w)
    let repayAmount := if w < d then w else d
    let d' ←
      if 0 < repayAmount then do
        extCall (ExtCall.repay repayAmount)
        liftE (safeSub d repayAmount)
      else pure d
    let c' ← liftE (safeSub c w)
    closeLoop env fuel d' c'

/-- closePosition of the source: reentrancy gate (no pause gate — exit
is always possible), ownership checks, live balance reads, allowance
grant, the bounded unwind loop, leftover-collateral withdrawal, residual
debt check, net proceeds and exit fee from the stored snapshot, the
transfers, position clearing, allowance revocation. -/
def closePosition (env : Env) (sender : Nat) : M Unit := do
  nonReentrant
  let storedDeposit ← readDeposit sender
  if storedDeposit = 0 then M.throw Err.NoOpenPosition else do
  let active ← readActiveUser
  if active ≠ sender then M.throw Err.NotPositionOwner else do
  let d0 ← query env ExtCall.borrowBalance
  let c0 ← query env ExtCall.depositBalance
  tokenCall env (ExtCall.incAllowance U256MAX)
  let rc ← closeLoop env MAX_LOOPS d0 c0
  let _ ← (if 0 < rc.2 then extCall (ExtCall.withdraw rc.2) else pure ())
  let residual ← query env ExtCall.borrowBalance
  if 0 < residual then M.throw Err.UnwindIncomplete else do
  let storedDebt ← readDebt sender
  let netProceeds ←
    if storedDebt < storedDeposit then liftE (safeSub storedDeposit storedDebt)
    else pure 0
  let _fee ←
    if 0 < netProceeds then do
      let exitFee ← liftE (feeRoundUp netProceeds EXIT_FEE_BPS)
      let userReceives ← liftE (safeSub netProceeds exitFee)
      let _ ← (if 0 < exitFee then do
          let tre ← readTreasury
          tokenCall env (ExtCall.transfer tre exitFee)
          let fees ← readFees
          let fees' ← liftE (safeAdd fees exitFee)
          writeFees fees'
        else pure ())
      let _ ← (if 0 < userReceives then tokenCall env (ExtCall.transfer sender userReceives)
        else pure ())
      pure (exitFee, userReceives)
    else pure ((0 : Nat), netProceeds)
  writeDeposit sender 0
  writeDebt sender 0
  writeActiveUser 0
  tokenCall env (ExtCall.decAllowance U256MAX)
  releaseGuard

/-- Run openPosition as one invocation, starting from the given storage
with an empty call trace. -/
def runOpen (env : Env) (s : LoopState) (sender amount targetLeverageE18 : Nat) :
    Except Err Unit × Ctx :=
  openPosition env sender amount targetLeverageE18 ⟨s, []⟩

/-- Run closePosition as one invocation, starting from the given storage
with an empty call trace. -/
def runClose (env : Env) (s : LoopState) (sender : Nat) : Except Err Unit × Ctx :=
  closePosition env sender ⟨s, []⟩

/-- Observable storage after an invocation: the runtime commits the new
storage only when the invocation succeeded, and rolls everything back on
a revert. -/
def postState (s : LoopState) (out : Except Err Unit × Ctx) : LoopState :=
  match out.1 with
  | Except.ok _ => out.2.st
  | Except.error _ => s

-- Classification of calls in a trace, for counting pool round-trips.

def isDepositB : ExtCall → Bool
  | ExtCall.deposit _ => true
  | _ => false

def isBorrowB : ExtCall → Bool
  | ExtCall.borrow _ => true
  | _ => false

def isWithdrawB : ExtCall → Bool
  | ExtCall.withdraw _ => true
  | _ => false

def isRepayB : ExtCall → Bool
  | ExtCall.repay _ => true
  | _ => false

/-- A trace is health-sound when every healthFactor query recorded in it
was answered with a value at or above the 1.5e18 minimum. -/
def goodTr (env : Env) (tr : List ExtCall) : Prop :=
  ∀ t₁ t₂, tr = t₁ ++ ExtCall.healthFactor :: t₂ →
    MIN_HEALTH_FACTOR_E18 ≤ env.respNat (t₁ ++ [ExtCall.healthFactor])

theorem goodTr_nil (env : Env) : goodTr env [] := by
  intro t₁ t₂ h
  exact absurd h (by simp)

theorem goodTr_of_not_mem (env : Env) {tr : List ExtCall}
    (h : ExtCall.healthFactor ∉ tr) : goodTr env tr := by
  intro t₁ t₂ ht
  rw [ht] at h
  simp at h

/-- Decomposing a one-element extension of a trace around an occurrence
of a given call: the occurrence is either the new last element or lies
in the original trace. -/
theorem snoc_decomp {tr t₁ t₂ : List ExtCall} {x h : ExtCall}
    (H : tr ++ [x] = t₁ ++ h :: t₂) :
    (tr = t₁ ∧ x = h ∧ t₂ = []) ∨ ∃ t₂', tr = t₁ ++ h :: t₂' ∧ t₂ = t₂' ++ [x] := by
  rcases List.eq_nil_or_concat t₂ with h2 | ⟨t₂', y, h2⟩
  · subst h2
    have := List.append_inj' H (by simp)
    exact Or.inl ⟨this.1, by simpa using this.2, rfl⟩
  · subst h2
    have H' : tr ++ [x] = (t₁ ++ h :: t₂') ++ [y] := by simpa using H
    have := List.append_inj' H' (by simp)
    have hxy : x = y := by simpa using this.2
    exact Or.inr ⟨t₂', this.1, by rw [hxy]; exact List.concat_eq_append t₂' y⟩

theorem goodTr_snoc_nonHF {env : Env} {tr : List ExtCall} {x : ExtCall}
    (h : goodTr env tr) (hx : x ≠ ExtCall.healthFactor) :
    goodTr env (tr ++ [x]) := by
  intro t₁ t₂ ht
  rcases snoc_decomp ht with ⟨_, h2, _⟩ | ⟨t₂', h1, _⟩
  · exact absurd h2 hx
  · exact h t₁ t₂' h1

theorem goodTr_snoc_HF {env : Env} {tr : List ExtCall}
    (h : goodTr env tr)
    (hr : MIN_HEALTH_FACTOR_E18 ≤ env.respNat (tr ++ [ExtCall.healthFactor])) :
    goodTr env (tr ++ [ExtCall.healthFactor]) := by
  intro t₁ t₂ ht
  rcases snoc_decomp ht with ⟨h1, _, _⟩ | ⟨t₂', h1, _⟩
  · subst h1; exact hr
  · exact h t₁ t₂' h1

theorem exceptBind_ok {α β : Type} (a : α) (f : α → Except Err β) :
    (Except.ok a >>= f) = f a := rfl

theorem exceptBind_error {α β : Type} (e : Err) (f : α → Except Err β) :
    ((Except.error e : Except Err α) >>= f) = Except.error e := rfl

theorem exceptPure_def {α : Type} (a : α) : (pure a : Except Err α) = Except.ok a := rfl

/-- Closed form of the safe withdrawal amount of the unwind loop: half
the collateral, replaced by the excess of collateral over debt when that
is larger, clamped below by one unit and above by the collateral. -/
theorem withdrawAmountOf_eq (c d : Nat) :
    withdrawAmountOf c d =
      Except.ok (min (max (if d < c ∧ c / 2 < c - d then c - d else c / 2) 1) c) := by
  unfold withdrawAmountOf safeDiv safeSub
  rw [if_neg (by omega : ¬(2 : Nat) = 0)]
  simp only [exceptBind_ok]
  by_cases hdc : d < c
  · rw [if_pos hdc, if_pos (Nat.le_of_lt hdc)]
    simp only [exceptBind_ok, exceptPure_def, Except.ok.injEq]
    split_ifs <;> omega
  · rw [if_neg hdc]
    simp only [exceptBind_ok, exceptPure_def, Except.ok.injEq]
    split_ifs <;> omega

/-- Full characterization of the unwind loop: it never aborts, leaves
storage untouched, and appends only withdraw and repay calls, at most
fuel of each. -/
theorem closeLoop_master (env : Env) :
    ∀ (fuel d c : Nat) (tr : List ExtCall),
    ∃ (Δ : List ExtCall) (d' c' : Nat),
      (∀ st, closeLoop env fuel d c ⟨st, tr⟩ = (Except.ok (d', c'), ⟨st, tr ++ Δ⟩)) ∧
      Δ.countP isWithdrawB ≤ fuel ∧ Δ.countP isRepayB ≤ fuel ∧
      (∀ x ∈ Δ, (∃ a, x = ExtCall.withdraw a) ∨ (∃ a, x = ExtCall.repay a)) := by
  intro fuel
  induction fuel with
  | zero =>
    intro d c tr
    exact ⟨[], d, c, fun st => by simp [closeLoop, M.pure_def],
      by simp, by simp, by simp⟩
  | succ n ih =>
    intro d c tr
    by_cases hd : d = 0
    · refine ⟨[], d, c, fun st => ?_, by simp, by simp, by simp⟩
      simp only [closeLoop]
      rw [if_pos hd]
      simp [M.pure_def]
    by_cases hc : c = 0
    · refine ⟨[], d, c, fun st => ?_, by simp, by simp, by simp⟩
      simp only [closeLoop]
      rw [if_neg hd, if_pos hc]
      simp [M.pure_def]
    have hw := withdrawAmountOf_eq c d
    have hwv1 : 1 ≤ min (max (if d < c ∧ c / 2 < c - d then c - d else c / 2) 1) c := by
      split <;> omega
    have hwvc : min (max (if d < c ∧ c / 2 < c - d then c - d else c / 2) 1) c ≤ c :=
      Nat.min_le_right _ _
    set wv := min (max (if d < c ∧ c / 2 < c - d then c - d else c / 2) 1) c with hwvdef
    have hrpos : 0 < (if wv < d then wv else d) := by split <;> omega
    have hrled : (if wv < d then wv else d) ≤ d := by split <;> omega
    set rv := if wv < d then wv else d with hrvdef
    obtain ⟨Δ', d', c', hst, hcw, hcr, hmem⟩ :=
      ih (d - rv) (c - wv) ((tr ++ [ExtCall.withdraw wv]) ++ [ExtCall.repay rv])
    refine ⟨ExtCall.withdraw wv :: ExtCall.repay rv :: Δ', d', c', fun st => ?_, ?_, ?_, ?_⟩
    · simp only [closeLoop]
      rw [if_neg hd, if_neg hc]
      simp only [M.bind_def, liftE_def, hw, extCall, ← hrvdef]
      rw [if_pos hrpos]
      simp only [M.bind_def, extCall, liftE_def, safeSub]
      rw [if_pos hrled, if_pos hwvc]
      simp only [M.bind_def]
      rw [hst st]
      simp [List.append_assoc]
    · simp only [List.countP_cons, isWithdrawB, isRepayB]
      simp only [if_true, if_false, Bool.false_eq_true, if_pos, if_neg]
      omega
    · simp only [List.countP_cons, isWithdrawB, isRepayB]
      simp only [if_true, if_false, Bool.false_eq_true, if_pos, if_neg]
      omega
    · intro x hx
      rcases List.mem_cons.mp hx with rfl | hx
      · exact Or.inl ⟨wv, rfl⟩
      rcases List.mem_cons.mp hx with rfl | hx
      · exact Or.inr ⟨rv, rfl⟩
      exact hmem x hx

theorem goodTr_append_noHF {env : Env} {tr Δ : List ExtCall}
    (h : goodTr env tr) (hΔ : ExtCall.healthFactor ∉ Δ) : goodTr env (tr ++ Δ) := by
  induction Δ using List.reverseRecOn with
  | nil => simpa using h
  | append_singleton Δ₀ x ih =>
    have hx : x ≠ ExtCall.healthFactor := by
      intro hxe
      exact hΔ (by simp [hxe])
    have h0 : goodTr env (tr ++ Δ₀) := ih (fun hm => hΔ (by simp [hm]))
    have := goodTr_snoc_nonHF h0 hx
    simpa [List.append_assoc] using this

/-- Full characterization of the leverage loop: storage untouched, at
most fuel deposit and fuel borrow calls appended, health soundness of
the extended trace unless the loop aborted with HealthFactorTooLow, and
the running deposit total never exceeding the target. -/
theorem openLoop_master (env : Env) (target : Nat) :
    ∀ (fuel td tb cur : Nat) (tr : List ExtCall),
    ∃ (Δ : List ExtCall) (r : Except Err (Nat × Nat)),
      (∀ st, openLoop env target fuel td tb cur ⟨st, tr⟩ = (r, ⟨st, tr ++ Δ⟩)) ∧
      Δ.countP isDepositB ≤ fuel ∧ Δ.countP isBorrowB ≤ fuel ∧
      (goodTr env tr → goodTr env (tr ++ Δ) ∨ r = Except.error Err.HealthFactorTooLow) ∧
      (td + cur ≤ target → ∀ p, r = Except.ok p → p.1 ≤ target) := by
  intro fuel
  induction fuel with
  | zero =>
    intro td tb cur tr
    refine ⟨[], Except.ok (td, tb), fun st => by simp [openLoop, M.pure_def],
      by simp, by simp, fun h => Or.inl (by simpa using h), ?_⟩
    intro hle p hp
    injection hp with hp
    subst hp
    omega
  | succ n ih =>
    intro td tb cur tr
    by_cases hcur : cur = 0
    · refine ⟨[], Except.ok (td, tb), fun st => ?_, by simp, by simp,
        fun h => Or.inl (by simpa using h), ?_⟩
      · simp [openLoop, hcur, M.pure_def]
      · intro hle p hp
        injection hp with hp
        subst hp
        simp only
        omega
    by_cases hov : td + cur ≤ U256MAX
    swap
    · -- SafeMath.add overflow on totalDeposited
      have hadd : safeAdd td cur = Except.error Err.ArithmeticOverflow := by
        simp [safeAdd, hov]
      refine ⟨[ExtCall.deposit cur], Except.error Err.ArithmeticOverflow, fun st => ?_,
        by simp [List.countP_cons, isDepositB], by simp [List.countP_cons, isBorrowB],
        ?_, by intro _ p hp; cases hp⟩
      · simp [openLoop, hcur, M.bind_def, extCall, liftE_def, hadd]
      · intro h
        exact Or.inl (goodTr_append_noHF h (by simp))
    have hadd : safeAdd td cur = Except.ok (td + cur) := by simp [safeAdd, hov]
    by_cases htgt : target ≤ td + cur
    · -- target reached after this deposit
      refine ⟨[ExtCall.deposit cur], Except.ok (td + cur, tb), fun st => ?_,
        by simp [List.countP_cons, isDepositB], by simp [List.countP_cons, isBorrowB],
        ?_, ?_⟩
      · simp [openLoop, hcur, htgt, M.bind_def, extCall, liftE_def, hadd, M.pure_def]
      · intro h
        exact Or.inl (goodTr_append_noHF h (by simp))
      · intro hle p hp
        injection hp with hp
        subst hp
        simpa using hle
    have hsub : td + cur ≤ target := by omega
    have hsubeq : safeSub target (td + cur) = Except.ok (target - (td + cur)) := by
      simp [safeSub, hsub]
    by_cases hm : env.respNat (tr ++ [ExtCall.deposit cur, ExtCall.maxBorrowable]) = 0
    · -- pool exhausted: maxBorrowable is zero
      refine ⟨[ExtCall.deposit cur, ExtCall.maxBorrowable], Except.ok (td + cur, tb),
        fun st => ?_, by simp [List.countP_cons, isDepositB],
        by simp [List.countP_cons, isBorrowB], ?_, ?_⟩
      · simp [openLoop, hcur, htgt, M.bind_def, extCall, liftE_def, hadd, query, hm,
          M.pure_def]
      · intro h
        exact Or.inl (goodTr_append_noHF h (by simp))
      · intro _ p hp
        injection hp with hp
        subst hp
        simp only
        omega
    by_cases hba : (if env.respNat (tr ++ [ExtCall.deposit cur, ExtCall.maxBorrowable]) <
        target - (td + cur)
        then env.respNat (tr ++ [ExtCall.deposit cur, ExtCall.maxBorrowable])
        else target - (td + cur)) = 0
    · -- borrow amount clamps to zero
      refine ⟨[ExtCall.deposit cur, ExtCall.maxBorrowable], Except.ok (td + cur, tb),
        fun st => ?_, by simp [List.countP_cons, isDepositB],
        by simp [List.countP_cons, isBorrowB], ?_, ?_⟩
      · simp [openLoop, hcur, htgt, M.bind_def, extCall, liftE_def, hadd, query, hm,
          hsubeq, hba, M.pure_def]
      · intro h
        exact Or.inl (goodTr_append_noHF h (by simp))
      · intro _ p hp
        injection hp with hp
        subst hp
        simp only
        omega
    -- from here on, write ba for the chosen borrow amount
    generalize hbadef : (if env.respNat (tr ++ [ExtCall.deposit cur, ExtCall.maxBorrowable]) <
        target - (td + cur)
        then env.respNat (tr ++ [ExtCall.deposit cur, ExtCall.maxBorrowable])
        else target - (td + cur)) = ba at hba
    have hbale : ba ≤ target - (td + cur) := by
      rw [← hbadef]
      split <;> omega
    by_cases hov2 : tb + ba ≤ U256MAX
    swap
    · -- SafeMath.add overflow on totalBorrowed
      have hadd2 : safeAdd tb ba = Except.error Err.ArithmeticOverflow := by
        simp [safeAdd, hov2]
      refine ⟨[ExtCall.deposit cur, ExtCall.maxBorrowable, ExtCall.borrow ba],
        Except.error Err.ArithmeticOverflow, fun st => ?_,
        by simp [List.countP_cons, isDepositB], by simp [List.countP_cons, isBorrowB],
        ?_, by intro _ p hp; cases hp⟩
      · simp [openLoop, hcur, htgt, M.bind_def, extCall, liftE_def, hadd, query, hm,
          hsubeq, hbadef, hba, hadd2, M.pure_def]
      · intro h
        exact Or.inl (goodTr_append_noHF h (by simp))
    have hadd2 : safeAdd tb ba = Except.ok (tb + ba) := by simp [safeAdd, hov2]
    by_cases hhf : env.respNat (tr ++ [ExtCall.deposit cur, ExtCall.maxBorrowable,
        ExtCall.borrow ba, ExtCall.healthFactor]) < MIN_HEALTH_FACTOR_E18
    · -- health factor below minimum right after the borrow
      refine ⟨[ExtCall.deposit cur, ExtCall.maxBorrowable, ExtCall.borrow ba,
        ExtCall.healthFactor], Except.error Err.HealthFactorTooLow, fun st => ?_,
        by simp [List.countP_cons, isDepositB], by simp [List.countP_cons, isBorrowB],
        fun _ => Or.inr rfl, by intro _ p hp; cases hp⟩
      simp [openLoop, hcur, htgt, M.bind_def, extCall, liftE_def, hadd, query, hm,
        hsubeq, hbadef, hba, hadd2, enforceHealthFactor, hhf, M.throw_def, M.pure_def]
    · -- health check passed: continue with the next iteration
      obtain ⟨Δ', r, hst, hcd, hcb, hgt, hinv⟩ :=
        ih (td + cur) (tb + ba) ba
          (tr ++ [ExtCall.deposit cur, ExtCall.maxBorrowable,
            ExtCall.borrow ba, ExtCall.healthFactor])
      refine ⟨ExtCall.deposit cur :: ExtCall.maxBorrowable :: ExtCall.borrow ba ::
        ExtCall.healthFactor :: Δ', r, fun st => ?_, ?_, ?_, ?_, ?_⟩
      · have hrec := hst st
        simp [openLoop, hcur, htgt, M.bind_def, extCall, liftE_def, hadd, query, hm,
          hsubeq, hbadef, hba, hadd2, enforceHealthFactor, hhf, M.throw_def, M.pure_def,
          hrec]
      · simp only [List.countP_cons, isDepositB]
        simp
        omega
      · simp only [List.countP_cons, isBorrowB]
        simp
        omega
      · intro h
        have h1 : goodTr env (tr ++ [ExtCall.deposit cur, ExtCall.maxBorrowable,
            ExtCall.borrow ba]) :=
          goodTr_append_noHF h (by simp)
        have h2 := goodTr_snoc_HF h1 (by simpa [List.append_assoc] using Nat.le_of_not_lt hhf)
        have h3 : goodTr env (tr ++ [ExtCall.deposit cur, ExtCall.maxBorrowable,
            ExtCall.borrow ba, ExtCall.healthFactor]) := by
          simpa [List.append_assoc] using h2
        rcases hgt h3 with hg | he
        · exact Or.inl (by simpa [List.append_assoc] using hg)
        · exact Or.inr he
      · intro _ p hp
        have : td + cur + ba ≤ target := by omega
        exact hinv this p hp

theorem M.bind_assoc {α β γ : Type} (x : M α) (f : α → M β) (g : β → M γ) :
    (x >>= f) >>= g = x >>= fun a => f a >>= g := by
  funext c
  rcases hx : x c with ⟨rx, cx⟩
  rcases rx with e | a <;> simp [M.bind_def, hx]

theorem run_bind_ok {α β : Type} {x : M α} {f : α → M β} {c c₁ : Ctx} {a : α}
    (hx : x c = (Except.ok a, c₁)) : (x >>= f) c = f a c₁ := by
  show (match x c with
    | (Except.ok a, c') => f a c'
    | (Except.error e, c') => (Except.error e, c')) = f a c₁
  rw [hx]

theorem run_bind_error {α β : Type} {x : M α} {f : α → M β} {c c₁ : Ctx} {e : Err}
    (hx : x c = (Except.error e, c₁)) : (x >>= f) c = (Except.error e, c₁) := by
  show (match x c with
    | (Except.ok a, c') => f a c'
    | (Except.error e, c') => (Except.error e, c')) = (Except.error e, c₁)
  rw [hx]

/-- The value returned by a successful feeRoundUp is the ceiling
formula. -/
theorem feeRoundUp_ok {amount bps fee : Nat}
    (h : feeRoundUp amount bps = Except.ok fee) :
    fee = (amount * bps + (FEE_BASIS - 1)) / FEE_BASIS := by
  unfold feeRoundUp safeMul at h
  by_cases h1 : amount * bps ≤ U256MAX
  · rw [if_pos h1] at h
    simp only [exceptBind_ok] at h
    unfold safeSub at h
    rw [if_pos (by norm_num [FEE_BASIS])] at h
    simp only [exceptBind_ok] at h
    unfold safeAdd at h
    by_cases h2 : amount * bps + (FEE_BASIS - 1) ≤ U256MAX
    · rw [if_pos h2] at h
      simp only [exceptBind_ok] at h
      unfold safeDiv at h
      rw [if_neg (by norm_num [FEE_BASIS])] at h
      injection h with h
      exact h.symm
    · rw [if_neg h2] at h
      simp only [exceptBind_error] at h
      exact Except.noConfusion h
  · rw [if_neg h1] at h
    simp only [exceptBind_error] at h
    exact Except.noConfusion h

theorem entryFee_pos {amount fee : Nat} (hmin : MIN_DEPOSIT ≤ amount)
    (h : feeRoundUp amount ENTRY_FEE_BPS = Except.ok fee) : 0 < fee := by
  have := feeRoundUp_ok h
  simp only [ENTRY_FEE_BPS, FEE_BASIS] at this
  simp only [MIN_DEPOSIT] at hmin
  omega

theorem entryFee_le {amount fee : Nat} (hmin : MIN_DEPOSIT ≤ amount)
    (h : feeRoundUp amount ENTRY_FEE_BPS = Except.ok fee) : fee ≤ amount := by
  have := feeRoundUp_ok h
  simp only [ENTRY_FEE_BPS, FEE_BASIS] at this
  simp only [MIN_DEPOSIT] at hmin
  omega

/-- What a successful openPosition invocation guarantees: the gates and
validations all passed at entry, and the final storage records the
position for the caller, with the stored deposit total bounded by the
leverage target computed from the net deposit. -/
def OpenShape (s : LoopState) (sender amount lev : Nat) (st' : LoopState) : Prop :=
  s.paused = false ∧ s.locked = false ∧ s.activeUser = 0 ∧
  MIN_DEPOSIT ≤ amount ∧ E18 ≤ lev ∧ lev ≤ MAX_LEVERAGE_E18 ∧
  ∃ fee td tb,
    feeRoundUp amount ENTRY_FEE_BPS = Except.ok fee ∧
    td ≤ (amount - fee) * lev / E18 ∧
    st' = { s with
            locked := false
            activeUser := sender
            userDeposits := Function.update s.userDeposits sender td
            userDebts := Function.update s.userDebts sender tb
            totalFees := s.totalFees + fee }

/-- All-paths characterization of openPosition: at most MAX_LOOPS
deposit and MAX_LOOPS borrow calls in the trace; every below-minimum
healthFactor response forces the HealthFactorTooLow abort; and a
successful run satisfies OpenShape. -/
theorem open_master (env : Env) (s : LoopState) (sender amount lev : Nat)
    (r : Except Err Unit) (ctx' : Ctx)
    (h : runOpen env s sender amount lev = (r, ctx')) :
    ctx'.tr.countP isDepositB ≤ MAX_LOOPS ∧
    ctx'.tr.countP isBorrowB ≤ MAX_LOOPS ∧
    (goodTr env ctx'.tr ∨ r = Except.error Err.HealthFactorTooLow) ∧
    (∀ u, r = Except.ok u → OpenShape s sender amount lev ctx'.st) := by
  unfold runOpen openPosition at h
  by_cases hp : s.paused = true
  · rw [run_bind_error (show whenNotPaused ⟨s, []⟩ = (Except.error Err.Paused, ⟨s, []⟩) by
      simp [whenNotPaused, readPaused, M.bind_def, M.throw_def, hp])] at h
    injection h with h1 h2
    subst h1; subst h2
    exact ⟨by simp [MAX_LOOPS], by simp [MAX_LOOPS], Or.inl (goodTr_nil env),
      fun u hu => Except.noConfusion hu⟩
  rw [run_bind_ok (show whenNotPaused ⟨s, []⟩ = (Except.ok (), ⟨s, []⟩) by
    simp [whenNotPaused, readPaused, M.bind_def, M.pure_def, hp])] at h
  by_cases hl : s.locked = true
  · rw [run_bind_error (show nonReentrant ⟨s, []⟩ = (Except.error Err.Reentrant, ⟨s, []⟩) by
      simp [nonReentrant, readLocked, M.bind_def, M.throw_def, hl])] at h
    injection h with h1 h2
    subst h1; subst h2
    exact ⟨by simp [MAX_LOOPS], by simp [MAX_LOOPS], Or.inl (goodTr_nil env),
      fun u hu => Except.noConfusion hu⟩
  rw [run_bind_ok (show nonReentrant ⟨s, []⟩ =
      (Except.ok (), ⟨{ s with locked := true }, []⟩) by
    simp [nonReentrant, readLocked, writeLocked, M.bind_def, hl])] at h
  by_cases hmin : amount < MIN_DEPOSIT
  · rw [if_pos hmin] at h
    rw [M.throw_def] at h
    injection h with h1 h2
    subst h1; subst h2
    exact ⟨by simp [MAX_LOOPS], by simp [MAX_LOOPS], Or.inl (goodTr_nil env),
      fun u hu => Except.noConfusion hu⟩
  rw [if_neg hmin] at h
  by_cases hlevhi : MAX_LEVERAGE_E18 < lev
  · rw [if_pos hlevhi] at h
    rw [M.throw_def] at h
    injection h with h1 h2
    subst h1; subst h2
    exact ⟨by simp [MAX_LOOPS], by simp [MAX_LOOPS], Or.inl (goodTr_nil env),
      fun u hu => Except.noConfusion hu⟩
  rw [if_neg hlevhi] at h
  by_cases hlevlo : lev < E18
  · rw [if_pos hlevlo] at h
    rw [M.throw_def] at h
    injection h with h1 h2
    subst h1; subst h2
    exact ⟨by simp [MAX_LOOPS], by simp [MAX_LOOPS], Or.inl (goodTr_nil env),
      fun u hu => Except.noConfusion hu⟩
  rw [if_neg hlevlo] at h
  rw [run_bind_ok (show readActiveUser ⟨{ s with locked := true }, []⟩ =
      (Except.ok s.activeUser, ⟨{ s with locked := true }, []⟩) from rfl)] at h
  by_cases hact : s.activeUser ≠ 0
  · rw [if_pos hact] at h
    rw [M.throw_def] at h
    injection h with h1 h2
    subst h1; subst h2
    exact ⟨by simp [MAX_LOOPS], by simp [MAX_LOOPS], Or.inl (goodTr_nil env),
      fun u hu => Except.noConfusion hu⟩
  rw [if_neg hact] at h
  by_cases hok1 : env.respOk [ExtCall.transferFrom sender contractAddr amount] = true
  swap
  · rw [run_bind_error (show tokenCall env (ExtCall.transferFrom sender contractAddr amount)
        ⟨{ s with locked := true }, []⟩ =
        (Except.error Err.TransferFailed,
          ⟨{ s with locked := true }, [ExtCall.transferFrom sender contractAddr amount]⟩) by
      simp [tokenCall, hok1])] at h
    injection h with h1 h2
    subst h1; subst h2
    exact ⟨by simp [MAX_LOOPS, isDepositB], by simp [MAX_LOOPS, isBorrowB],
      Or.inl (goodTr_of_not_mem env (by simp)), fun u hu => Except.noConfusion hu⟩
  rw [run_bind_ok (show tokenCall env (ExtCall.transferFrom sender contractAddr amount)
      ⟨{ s with locked := true }, []⟩ =
      (Except.ok (),
        ⟨{ s with locked := true }, [ExtCall.transferFrom sender contractAddr amount]⟩) by
    simp [tokenCall, hok1])] at h
  rcases hfee : feeRoundUp amount ENTRY_FEE_BPS with e2 | fee
  · rw [run_bind_error (show liftE (feeRoundUp amount ENTRY_FEE_BPS)
        ⟨{ s with locked := true }, [ExtCall.transferFrom sender contractAddr amount]⟩ =
        (Except.error e2,
          ⟨{ s with locked := true }, [ExtCall.transferFrom sender contractAddr amount]⟩) by
      simp [liftE_def, hfee])] at h
    injection h with h1 h2
    subst h1; subst h2
    exact ⟨by simp [MAX_LOOPS, isDepositB], by simp [MAX_LOOPS, isBorrowB],
      Or.inl (goodTr_of_not_mem env (by simp)), fun u hu => Except.noConfusion hu⟩
  rw [run_bind_ok (show liftE (feeRoundUp amount ENTRY_FEE_BPS)
      ⟨{ s with locked := true }, [ExtCall.transferFrom sender contractAddr amount]⟩ =
      (Except.ok fee,
        ⟨{ s with locked := true }, [ExtCall.transferFrom sender contractAddr amount]⟩) by
    simp [liftE_def, hfee])] at h
  have hminle : MIN_DEPOSIT ≤ amount := Nat.le_of_not_lt hmin
  have hfle : fee ≤ amount := entryFee_le hminle hfee
  have hfpos : 0 < fee := entryFee_pos hminle hfee
  rw [run_bind_ok (show liftE (safeSub amount fee)
      ⟨{ s with locked := true }, [ExtCall.transferFrom sender contractAddr amount]⟩ =
      (Except.ok (amount - fee),
        ⟨{ s with locked := true }, [ExtCall.transferFrom sender contractAddr amount]⟩) by
    simp [liftE_def, safeSub, hfle])] at h
  rw [if_pos hfpos] at h
  simp only [M.bind_assoc] at h
  simp only [run_bind_ok (show readTreasury
      ⟨{ s with locked := true }, [ExtCall.transferFrom sender contractAddr amount]⟩ =
      (Except.ok s.treasury,
        ⟨{ s with locked := true }, [ExtCall.transferFrom sender contractAddr amount]⟩)
      from rfl)] at h
  by_cases hok2 : env.respOk [ExtCall.transferFrom sender contractAddr amount,
      ExtCall.transfer s.treasury fee] = true
  swap
  · simp only [run_bind_error (show tokenCall env (ExtCall.transfer s.treasury fee)
        ⟨{ s with locked := true }, [ExtCall.transferFrom sender contractAddr amount]⟩ =
        (Except.error Err.TransferFailed,
          ⟨{ s with locked := true }, [ExtCall.transferFrom sender contractAddr amount,
            ExtCall.transfer s.treasury fee]⟩) by
      simp [tokenCall, hok2])] at h
    injection h with h1 h2
    subst h1; subst h2
    exact ⟨by simp [MAX_LOOPS, isDepositB], by simp [MAX_LOOPS, isBorrowB],
      Or.inl (goodTr_of_not_mem env (by simp)), fun u hu => Except.noConfusion hu⟩
  simp only [run_bind_ok (show tokenCall env (ExtCall.transfer s.treasury fee)
      ⟨{ s with locked := true }, [ExtCall.transferFrom sender contractAddr amount]⟩ =
      (Except.ok (),
        ⟨{ s with locked := true }, [ExtCall.transferFrom sender contractAddr amount,
          ExtCall.transfer s.treasury fee]⟩) by
    simp [tokenCall, hok2])] at h
  simp only [run_bind_ok (show readFees
      ⟨{ s with locked := true }, [ExtCall.transferFrom sender contractAddr amount,
        ExtCall.transfer s.treasury fee]⟩ =
      (Except.ok s.totalFees,
        ⟨{ s with locked := true }, [ExtCall.transferFrom sender contractAddr amount,
          ExtCall.transfer s.treasury fee]⟩) from rfl)] at h
  by_cases hovf : s.totalFees + fee ≤ U256MAX
  swap
  · simp only [run_bind_error (show liftE (safeAdd s.totalFees fee)
        ⟨{ s with locked := true }, [ExtCall.transferFrom sender contractAddr amount,
          ExtCall.transfer s.treasury fee]⟩ =
        (Except.error Err.ArithmeticOverflow,
          ⟨{ s with locked := true }, [ExtCall.transferFrom sender contractAddr amount,
            ExtCall.transfer s.treasury fee]⟩) by
      simp [liftE_def, safeAdd, hovf])] at h
    injection h with h1 h2
    subst h1; subst h2
    exact ⟨by simp [MAX_LOOPS, isDepositB], by simp [MAX_LOOPS, isBorrowB],
      Or.inl (goodTr_of_not_mem env (by simp)), fun u hu => Except.noConfusion hu⟩
  simp only [run_bind_ok (show liftE (safeAdd s.totalFees fee)
      ⟨{ s with locked := true }, [ExtCall.transferFrom sender contractAddr amount,
        ExtCall.transfer s.treasury fee]⟩ =
      (Except.ok (s.totalFees + fee),
        ⟨{ s with locked := true }, [ExtCall.transferFrom sender contractAddr amount,
          ExtCall.transfer s.treasury fee]⟩) by
    simp [liftE_def, safeAdd, hovf])] at h
  simp only [run_bind_ok (show writeFees (s.totalFees + fee)
      ⟨{ s with locked := true }, [ExtCall.transferFrom sender contractAddr amount,
        ExtCall.transfer s.treasury fee]⟩ =
      (Except.ok (),
        ⟨{ s with locked := true, totalFees := s.totalFees + fee },
          [ExtCall.transferFrom sender contractAddr amount,
            ExtCall.transfer s.treasury fee]⟩) from rfl)] at h
  by_cases hok3 : env.respOk [ExtCall.transferFrom sender contractAddr amount,
      ExtCall.transfer s.treasury fee, ExtCall.incAllowance U256MAX] = true
  swap
  · simp only [run_bind_error (show tokenCall env (ExtCall.incAllowance U256MAX)
        ⟨{ s with locked := true, totalFees := s.totalFees + fee },
          [ExtCall.transferFrom sender contractAddr amount,
            ExtCall.transfer s.treasury fee]⟩ =
        (Except.error Err.TransferFailed,
          ⟨{ s with locked := true, totalFees := s.totalFees + fee },
            [ExtCall.transferFrom sender contractAddr amount,
              ExtCall.transfer s.treasury fee, ExtCall.incAllowance U256MAX]⟩) by
      simp [tokenCall, hok3])] at h
    injection h with h1 h2
    subst h1; subst h2
    exact ⟨by simp [MAX_LOOPS, isDepositB], by simp [MAX_LOOPS, isBorrowB],
      Or.inl (goodTr_of_not_mem env (by simp)), fun u hu => Except.noConfusion hu⟩
  simp only [run_bind_ok (show tokenCall env (ExtCall.incAllowance U256MAX)
      ⟨{ s with locked := true, totalFees := s.totalFees + fee },
        [ExtCall.transferFrom sender contractAddr amount,
          ExtCall.transfer s.treasury fee]⟩ =
      (Except.ok (),
        ⟨{ s with locked := true, totalFees := s.totalFees + fee },
          [ExtCall.transferFrom sender contractAddr amount,
            ExtCall.transfer s.treasury fee, ExtCall.incAllowance U256MAX]⟩) by
    simp [tokenCall, hok3])] at h
  by_cases hmul : (amount - fee) * lev ≤ U256MAX
  swap
  · simp only [run_bind_error (show liftE (safeMul (amount - fee) lev)
        ⟨{ s with locked := true, totalFees := s.totalFees + fee },
          [ExtCall.transferFrom sender contractAddr amount,
            ExtCall.transfer s.treasury fee, ExtCall.incAllowance U256MAX]⟩ =
        (Except.error Err.ArithmeticOverflow,
          ⟨{ s with locked := true, totalFees := s.totalFees + fee },
            [ExtCall.transferFrom sender contractAddr amount,
              ExtCall.transfer s.treasury fee, ExtCall.incAllowance U256MAX]⟩) by
      simp [liftE_def, safeMul, hmul])] at h
    injection h with h1 h2
    subst h1; subst h2
    exact ⟨by simp [MAX_LOOPS, isDepositB], by simp [MAX_LOOPS, isBorrowB],
      Or.inl (goodTr_of_not_mem env (by simp)), fun u hu => Except.noConfusion hu⟩
  simp only [run_bind_ok (show liftE (safeMul (amount - fee) lev)
      ⟨{ s with locked := true, totalFees := s.totalFees + fee },
        [ExtCall.transferFrom sender contractAddr amount,
          ExtCall.transfer s.treasury fee, ExtCall.incAllowance U256MAX]⟩ =
      (Except.ok ((amount - fee) * lev),
        ⟨{ s with locked := true, totalFees := s.totalFees + fee },
          [ExtCall.transferFrom sender contractAddr amount,
            ExtCall.transfer s.treasury fee, ExtCall.incAllowance U256MAX]⟩) by
    simp [liftE_def, safeMul, hmul])] at h
  simp only [run_bind_ok (show liftE (safeDiv ((amount - fee) * lev) E18)
      ⟨{ s with locked := true, totalFees := s.totalFees + fee },
        [ExtCall.transferFrom sender contractAddr amount,
          ExtCall.transfer s.treasury fee, ExtCall.incAllowance U256MAX]⟩ =
      (Except.ok ((amount - fee) * lev / E18),
        ⟨{ s with locked := true, totalFees := s.totalFees + fee },
          [ExtCall.transferFrom sender contractAddr amount,
            ExtCall.transfer s.treasury fee, ExtCall.incAllowance U256MAX]⟩) by
    simp [liftE_def, safeDiv, E18])] at h
  obtain ⟨Δl, rl, hst, hcd, hcb, hgt, hinv⟩ :=
    openLoop_master env ((amount - fee) * lev / E18) MAX_LOOPS 0 0 (amount - fee)
      [ExtCall.transferFrom sender contractAddr amount,
        ExtCall.transfer s.treasury fee, ExtCall.incAllowance U256MAX]
  have hgood3 : goodTr env [ExtCall.transferFrom sender contractAddr amount,
      ExtCall.transfer s.treasury fee, ExtCall.incAllowance U256MAX] :=
    goodTr_of_not_mem env (by simp)
  cases rl with
  | error el =>
    simp only [run_bind_error (hst { s with locked := true, totalFees := s.totalFees + fee })] at h
    injection h with h1 h2
    subst h1; subst h2
    refine ⟨?_, ?_, ?_, fun u hu => Except.noConfusion hu⟩
    · simp only [List.countP_append, List.countP_cons, List.countP_nil, isDepositB]
      simp only [MAX_LOOPS] at hcd ⊢
      simp
      omega
    · simp only [List.countP_append, List.countP_cons, List.countP_nil, isBorrowB]
      simp only [MAX_LOOPS] at hcb ⊢
      simp
      omega
    · rcases hgt hgood3 with hg | he
      · exact Or.inl hg
      · injection he with he
        subst he
        exact Or.inr rfl
  | ok p =>
    simp only [run_bind_ok (hst { s with locked := true, totalFees := s.totalFees + fee })] at h
    have hgoodl : goodTr env ([ExtCall.transferFrom sender contractAddr amount,
        ExtCall.transfer s.treasury fee, ExtCall.incAllowance U256MAX] ++ Δl) := by
      rcases hgt hgood3 with hg | he
      · exact hg
      · exact absurd he (by simp)
    by_cases hfin : env.respNat (([ExtCall.transferFrom sender contractAddr amount,
        ExtCall.transfer s.treasury fee, ExtCall.incAllowance U256MAX] ++ Δl)
        ++ [ExtCall.healthFactor]) < MIN_HEALTH_FACTOR_E18
    · simp only [run_bind_error (show enforceHealthFactor env
          ⟨{ s with locked := true, totalFees := s.totalFees + fee },
            [ExtCall.transferFrom sender contractAddr amount,
              ExtCall.transfer s.treasury fee, ExtCall.incAllowance U256MAX] ++ Δl⟩ =
          (Except.error Err.HealthFactorTooLow,
            ⟨{ s with locked := true, totalFees := s.totalFees + fee },
              ([ExtCall.transferFrom sender contractAddr amount,
                ExtCall.transfer s.treasury fee, ExtCall.incAllowance U256MAX] ++ Δl)
                ++ [ExtCall.healthFactor]⟩) by
        have hfin2 : env.respNat (ExtCall.transferFrom sender contractAddr amount ::
            ExtCall.transfer s.treasury fee :: ExtCall.incAllowance U256MAX ::
            (Δl ++ [ExtCall.healthFactor])) < MIN_HEALTH_FACTOR_E18 := by
          simpa using hfin
        simp [enforceHealthFactor, query, M.bind_def, M.throw_def, hfin2])] at h
      injection h with h1 h2
      subst h1; subst h2
      refine ⟨?_, ?_, Or.inr rfl, fun u hu => Except.noConfusion hu⟩
      · simp only [List.countP_append, List.countP_cons, List.countP_nil, isDepositB]
        simp only [MAX_LOOPS] at hcd ⊢
        simp
        omega
      · simp only [List.countP_append, List.countP_cons, List.countP_nil, isBorrowB]
        simp only [MAX_LOOPS] at hcb ⊢
        simp
        omega
    · simp only [run_bind_ok (show enforceHealthFactor env
          ⟨{ s with locked := true, totalFees := s.totalFees + fee },
            [ExtCall.transferFrom sender contractAddr amount,
              ExtCall.transfer s.treasury fee, ExtCall.incAllowance U256MAX] ++ Δl⟩ =
          (Except.ok (),
            ⟨{ s with locked := true, totalFees := s.totalFees + fee },
              ([ExtCall.transferFrom sender contractAddr amount,
                ExtCall.transfer s.treasury fee, ExtCall.incAllowance U256MAX] ++ Δl)
                ++ [ExtCall.healthFactor]⟩) by
        have hfin2 : ¬ env.respNat (ExtCall.transferFrom sender contractAddr amount ::
            ExtCall.transfer s.treasury fee :: ExtCall.incAllowance U256MAX ::
            (Δl ++ [ExtCall.healthFactor])) < MIN_HEALTH_FACTOR_E18 := by
          simpa using hfin
        simp [enforceHealthFactor, query, M.bind_def, M.pure_def, hfin2])] at h
      simp only [run_bind_ok (show writeActiveUser sender
          ⟨{ s with locked := true, totalFees := s.totalFees + fee },
            ([ExtCall.transferFrom sender contractAddr amount,
              ExtCall.transfer s.treasury fee, ExtCall.incAllowance U256MAX] ++ Δl)
              ++ [ExtCall.healthFactor]⟩ =
          (Except.ok (),
            ⟨{ s with
                locked := true
                totalFees := s.totalFees + fee
                activeUser := sender },
              ([ExtCall.transferFrom sender contractAddr amount,
                ExtCall.transfer s.treasury fee, ExtCall.incAllowance U256MAX] ++ Δl)
                ++ [ExtCall.healthFactor]⟩) from rfl)] at h
      simp only [run_bind_ok (show writeDeposit sender p.1
          ⟨{ s with
              locked := true
              totalFees := s.totalFees + fee
              activeUser := sender },
            ([ExtCall.transferFrom sender contractAddr amount,
              ExtCall.transfer s.treasury fee, ExtCall.incAllowance U256MAX] ++ Δl)
              ++ [ExtCall.healthFactor]⟩ =
          (Except.ok (),
            ⟨{ s with
                locked := true
                totalFees := s.totalFees + fee
                activeUser := sender
                userDeposits := Function.update s.userDeposits sender p.1 },
              ([ExtCall.transferFrom sender contractAddr amount,
                ExtCall.transfer s.treasury fee, ExtCall.incAllowance U256MAX] ++ Δl)
                ++ [ExtCall.healthFactor]⟩) from rfl)] at h
      simp only [run_bind_ok (show writeDebt sender p.2
          ⟨{ s with
              locked := true
              totalFees := s.totalFees + fee
              activeUser := sender
              userDeposits := Function.update s.userDeposits sender p.1 },
            ([ExtCall.transferFrom sender contractAddr amount,
              ExtCall.transfer s.treasury fee, ExtCall.incAllowance U256MAX] ++ Δl)
              ++ [ExtCall.healthFactor]⟩ =
          (Except.ok (),
            ⟨{ s with
                locked := true
                totalFees := s.totalFees + fee
                activeUser := sender
                userDeposits := Function.update s.userDeposits sender p.1
                userDebts := Function.update s.userDebts sender p.2 },
              ([ExtCall.transferFrom sender contractAddr amount,
                ExtCall.transfer s.treasury fee, ExtCall.incAllowance U256MAX] ++ Δl)
                ++ [ExtCall.healthFactor]⟩) from rfl)] at h
      simp only [releaseGuard, writeLocked] at h
      injection h with h1 h2
      subst h1; subst h2
      refine ⟨?_, ?_, ?_, ?_⟩
      · simp only [List.countP_append, List.countP_cons, List.countP_nil, isDepositB]
        simp only [MAX_LOOPS] at hcd ⊢
        simp
        omega
      · simp only [List.countP_append, List.countP_cons, List.countP_nil, isBorrowB]
        simp only [MAX_LOOPS] at hcb ⊢
        simp
        omega
      · exact Or.inl (goodTr_snoc_HF hgoodl (Nat.le_of_not_lt hfin))
      · intro u _
        refine ⟨by simpa using hp, by simpa using hl, by simpa using hact,
          hminle, Nat.le_of_not_lt hlevlo, Nat.le_of_not_lt hlevhi,
          fee, p.1, p.2, hfee, ?_, rfl⟩
        have hE : 0 < E18 := by norm_num [E18]
        have h1 : (amount - fee) * E18 ≤ (amount - fee) * lev :=
          Nat.mul_le_mul_left _ (Nat.le_of_not_lt hlevlo)
        have hnet : amount - fee ≤ (amount - fee) * lev / E18 :=
          (Nat.le_div_iff_mul_le hE).mpr h1
        exact hinv (by simpa using hnet) p rfl

/-- Net proceeds closePosition computes from the stored open-time
snapshot: storedDeposit minus storedDebt when positive, else zero. -/
def netProceedsOf (s : LoopState) (sender : Nat) : Nat :=
  if s.userDebts sender < s.userDeposits sender
  then s.userDeposits sender - s.userDebts sender else 0

/-- Exit fee charged by closePosition on the net proceeds (zero when the
proceeds are zero, else the round-up formula). -/
def exitFeeOf (s : LoopState) (sender : Nat) : Nat :=
  if 0 < netProceedsOf s sender
  then (netProceedsOf s sender * EXIT_FEE_BPS + (FEE_BASIS - 1)) / FEE_BASIS else 0

theorem exitFee_pos {P F : Nat} (hP : 0 < P)
    (h : feeRoundUp P EXIT_FEE_BPS = Except.ok F) : 0 < F := by
  have := feeRoundUp_ok h
  simp only [EXIT_FEE_BPS, FEE_BASIS] at this
  omega

theorem exitFee_le {P F : Nat} (h : feeRoundUp P EXIT_FEE_BPS = Except.ok F) : F ≤ P := by
  have := feeRoundUp_ok h
  simp only [EXIT_FEE_BPS, FEE_BASIS] at this
  omega

theorem snoc_bb_last {L t : List ExtCall} (he : L = t ++ [ExtCall.borrowBalance]) :
    L.getLast? = some ExtCall.borrowBalance := by
  rw [he]
  exact List.getLast?_concat _

/-- The final segment of closePosition (position clearing, allowance
revocation, guard release), run from any entry state and trace. -/
theorem close_tail_run (env : Env) (sender : Nat) (st0 : LoopState) (T0 : List ExtCall) :
    ((writeDeposit sender 0 >>= fun _ => writeDebt sender 0 >>= fun _ =>
      writeActiveUser 0 >>= fun _ =>
      tokenCall env (ExtCall.decAllowance U256MAX) >>= fun _ => releaseGuard) : M Unit)
      ⟨st0, T0⟩ =
    (if env.respOk (T0 ++ [ExtCall.decAllowance U256MAX]) = true
     then (Except.ok (), ⟨{ st0 with
            userDeposits := Function.update st0.userDeposits sender 0
            userDebts := Function.update st0.userDebts sender 0
            activeUser := 0
            locked := false }, T0 ++ [ExtCall.decAllowance U256MAX]⟩)
     else (Except.error Err.TransferFailed, ⟨{ st0 with
            userDeposits := Function.update st0.userDeposits sender 0
            userDebts := Function.update st0.userDebts sender 0
            activeUser := 0 }, T0 ++ [ExtCall.decAllowance U256MAX]⟩)) := by
  by_cases hok : env.respOk (T0 ++ [ExtCall.decAllowance U256MAX]) = true
  · rw [if_pos hok]
    simp only [run_bind_ok (show writeDeposit sender 0 ⟨st0, T0⟩ =
      (Except.ok (), ⟨{ st0 with
        userDeposits := Function.update st0.userDeposits sender 0 }, T0⟩) from rfl)]
    simp only [run_bind_ok (show writeDebt sender 0 ⟨{ st0 with
        userDeposits := Function.update st0.userDeposits sender 0 }, T0⟩ =
      (Except.ok (), ⟨{ st0 with
        userDeposits := Function.update st0.userDeposits sender 0
        userDebts := Function.update st0.userDebts sender 0 }, T0⟩) from rfl)]
    simp only [run_bind_ok (show writeActiveUser 0 ⟨{ st0 with
        userDeposits := Function.update st0.userDeposits sender 0
        userDebts := Function.update st0.userDebts sender 0 }, T0⟩ =
      (Except.ok (), ⟨{ st0 with
        userDeposits := Function.update st0.userDeposits sender 0
        userDebts := Function.update st0.userDebts sender 0
        activeUser := 0 }, T0⟩) from rfl)]
    simp only [run_bind_ok (show tokenCall env (ExtCall.decAllowance U256MAX) ⟨{ st0 with
        userDeposits := Function.update st0.userDeposits sender 0
        userDebts := Function.update st0.userDebts sender 0
        activeUser := 0 }, T0⟩ =
      (Except.ok (), ⟨{ st0 with
        userDeposits := Function.update st0.userDeposits sender 0
        userDebts := Function.update st0.userDebts sender 0
        activeUser := 0 }, T0 ++ [ExtCall.decAllowance U256MAX]⟩) by
      simp [tokenCall, hok])]
    rfl
  · rw [if_neg hok]
    simp only [run_bind_ok (show writeDeposit sender 0 ⟨st0, T0⟩ =
      (Except.ok (), ⟨{ st0 with
        userDeposits := Function.update st0.userDeposits sender 0 }, T0⟩) from rfl)]
    simp only [run_bind_ok (show writeDebt sender 0 ⟨{ st0 with
        userDeposits := Function.update st0.userDeposits sender 0 }, T0⟩ =
      (Except.ok (), ⟨{ st0 with
        userDeposits := Function.update st0.userDeposits sender 0
        userDebts := Function.update st0.userDebts sender 0 }, T0⟩) from rfl)]
    simp only [run_bind_ok (show writeActiveUser 0 ⟨{ st0 with
        userDeposits := Function.update st0.userDeposits sender 0
        userDebts := Function.update st0.userDebts sender 0 }, T0⟩ =
      (Except.ok (), ⟨{ st0 with
        userDeposits := Function.update st0.userDeposits sender 0
        userDebts := Function.update st0.userDebts sender 0
        activeUser := 0 }, T0⟩) from rfl)]
    simp only [run_bind_error (show tokenCall env (ExtCall.decAllowance U256MAX) ⟨{ st0 with
        userDeposits := Function.update st0.userDeposits sender 0
        userDebts := Function.update st0.userDebts sender 0
        activeUser := 0 }, T0⟩ =
      (Except.error Err.TransferFailed, ⟨{ st0 with
        userDeposits := Function.update st0.userDeposits sender 0
        userDebts := Function.update st0.userDebts sender 0
        activeUser := 0 }, T0 ++ [ExtCall.decAllowance U256MAX]⟩) by
      simp [tokenCall, hok])]

/-- What a successful closePosition invocation guarantees: the checks
passed at entry, the position slot is fully cleared, the fee accumulator
grew by the exit fee, and the trace ends with a borrowBalance re-query
answered zero followed only by the fee and proceeds transfers and the
allowance revocation. -/
def CloseShape (env : Env) (s : LoopState) (sender : Nat) (ctx' : Ctx) : Prop :=
  s.locked = false ∧ s.userDeposits sender ≠ 0 ∧ s.activeUser = sender ∧
  (0 < netProceedsOf s sender →
    feeRoundUp (netProceedsOf s sender) EXIT_FEE_BPS = Except.ok (exitFeeOf s sender)) ∧
  ctx'.st = { s with
      locked := false
      activeUser := 0
      userDeposits := Function.update s.userDeposits sender 0
      userDebts := Function.update s.userDebts sender 0
      totalFees := s.totalFees + exitFeeOf s sender } ∧
  ∃ tHead,
    (∀ x ∈ tHead, ∀ a b, x ≠ ExtCall.transfer a b) ∧
    env.respNat (tHead ++ [ExtCall.borrowBalance]) = 0 ∧
    ctx'.tr = tHead ++ ExtCall.borrowBalance ::
      ((if 0 < exitFeeOf s sender
        then [ExtCall.transfer s.treasury (exitFeeOf s sender)] else []) ++
       (if 0 < netProceedsOf s sender - exitFeeOf s sender
        then [ExtCall.transfer sender (netProceedsOf s sender - exitFeeOf s sender)] else []) ++
       [ExtCall.decAllowance U256MAX])

theorem snoc_ne_snoc {t₁ t₂ : List ExtCall} {x y : ExtCall} (hxy : x ≠ y)
    (he : t₁ ++ [x] = t₂ ++ [y]) : False := by
  have := (List.append_inj' he (by simp)).2
  simp at this
  exact hxy this

/-- All-paths characterization of closePosition: at most MAX_LOOPS repay
calls and MAX_LOOPS + 1 withdraw calls in the trace; if the trace ends
at a borrowBalance re-query answered non-zero, the invocation failed
with UnwindIncomplete; and a successful run satisfies CloseShape. -/
theorem close_master (env : Env) (s : LoopState) (sender : Nat)
    (r : Except Err Unit) (ctx' : Ctx)
    (h : runClose env s sender = (r, ctx')) :
    ctx'.tr.countP isWithdrawB ≤ MAX_LOOPS + 1 ∧
    ctx'.tr.countP isRepayB ≤ MAX_LOOPS ∧
    (∀ t, ctx'.tr = t ++ [ExtCall.borrowBalance] → 0 < env.respNat ctx'.tr →
      r = Except.error Err.UnwindIncomplete) ∧
    (∀ u, r = Except.ok u → CloseShape env s sender ctx') := by
  unfold runClose closePosition at h
  by_cases hl : s.locked = true
  · rw [run_bind_error (show nonReentrant ⟨s, []⟩ = (Except.error Err.Reentrant, ⟨s, []⟩) by
      simp [nonReentrant, readLocked, M.bind_def, M.throw_def, hl])] at h
    injection h with h1 h2
    subst h1; subst h2
    exact ⟨by simp [MAX_LOOPS], by simp [MAX_LOOPS], fun t ht _ => absurd ht (by simp),
      fun u hu => Except.noConfusion hu⟩
  rw [run_bind_ok (show nonReentrant ⟨s, []⟩ =
      (Except.ok (), ⟨{ s with locked := true }, []⟩) by
    simp [nonReentrant, readLocked, writeLocked, M.bind_def, hl])] at h
  simp only [run_bind_ok (show readDeposit sender ⟨{ s with locked := true }, []⟩ =
    (Except.ok (s.userDeposits sender), ⟨{ s with locked := true }, []⟩) from rfl)] at h
  by_cases hD : s.userDeposits sender = 0
  · rw [if_pos hD, M.throw_def] at h
    injection h with h1 h2
    subst h1; subst h2
    exact ⟨by simp [MAX_LOOPS], by simp [MAX_LOOPS], fun t ht _ => absurd ht (by simp),
      fun u hu => Except.noConfusion hu⟩
  rw [if_neg hD] at h
  simp only [run_bind_ok (show readActiveUser ⟨{ s with locked := true }, []⟩ =
    (Except.ok s.activeUser, ⟨{ s with locked := true }, []⟩) from rfl)] at h
  by_cases hAct : s.activeUser ≠ sender
  · rw [if_pos hAct, M.throw_def] at h
    injection h with h1 h2
    subst h1; subst h2
    exact ⟨by simp [MAX_LOOPS], by simp [MAX_LOOPS], fun t ht _ => absurd ht (by simp),
      fun u hu => Except.noConfusion hu⟩
  rw [if_neg hAct] at h
  simp only [run_bind_ok (show query env ExtCall.borrowBalance ⟨{ s with locked := true }, []⟩ =
    (Except.ok (env.respNat [ExtCall.borrowBalance]),
      ⟨{ s with locked := true }, [ExtCall.borrowBalance]⟩) from rfl)] at h
  simp only [run_bind_ok (show query env ExtCall.depositBalance
      ⟨{ s with locked := true }, [ExtCall.borrowBalance]⟩ =
    (Except.ok (env.respNat [ExtCall.borrowBalance, ExtCall.depositBalance]),
      ⟨{ s with locked := true }, [ExtCall.borrowBalance, ExtCall.depositBalance]⟩)
    from rfl)] at h
  by_cases hok1 : env.respOk [ExtCall.borrowBalance, ExtCall.depositBalance,
      ExtCall.incAllowance U256MAX] = true
  swap
  · rw [run_bind_error (show tokenCall env (ExtCall.incAllowance U256MAX)
        ⟨{ s with locked := true }, [ExtCall.borrowBalance, ExtCall.depositBalance]⟩ =
        (Except.error Err.TransferFailed,
          ⟨{ s with locked := true }, [ExtCall.borrowBalance, ExtCall.depositBalance,
            ExtCall.incAllowance U256MAX]⟩) by
      simp [tokenCall, hok1])] at h
    injection h with h1 h2
    subst h1; subst h2
    refine ⟨by simp [MAX_LOOPS, isWithdrawB], by simp [MAX_LOOPS, isRepayB], ?_,
      fun u hu => Except.noConfusion hu⟩
    intro t ht _
    exact (snoc_ne_snoc (show ExtCall.incAllowance U256MAX ≠ ExtCall.borrowBalance by simp)
      (show [ExtCall.borrowBalance, ExtCall.depositBalance] ++ [ExtCall.incAllowance U256MAX]
        = t ++ [ExtCall.borrowBalance] by simpa using ht)).elim
  rw [run_bind_ok (show tokenCall env (ExtCall.incAllowance U256MAX)
      ⟨{ s with locked := true }, [ExtCall.borrowBalance, ExtCall.depositBalance]⟩ =
      (Except.ok (),
        ⟨{ s with locked := true }, [ExtCall.borrowBalance, ExtCall.depositBalance,
          ExtCall.incAllowance U256MAX]⟩) by
    simp [tokenCall, hok1])] at h
  obtain ⟨Δl, dE, cE, hst, hw, hr, hmem⟩ :=
    closeLoop_master env MAX_LOOPS (env.respNat [ExtCall.borrowBalance])
      (env.respNat [ExtCall.borrowBalance, ExtCall.depositBalance])
      [ExtCall.borrowBalance, ExtCall.depositBalance, ExtCall.incAllowance U256MAX]
  simp only [run_bind_ok (hst { s with locked := true })] at h
  have hWex : ∃ W : List ExtCall,
      W.countP isWithdrawB ≤ 1 ∧ W.countP isRepayB = 0 ∧
      (∀ x ∈ W, ∀ a b, x ≠ ExtCall.transfer a b) ∧
      ((if 0 < cE then extCall (ExtCall.withdraw cE) else pure ()) : M Unit)
        ⟨{ s with locked := true },
          [ExtCall.borrowBalance, ExtCall.depositBalance,
            ExtCall.incAllowance U256MAX] ++ Δl⟩ =
        (Except.ok (), ⟨{ s with locked := true },
          ([ExtCall.borrowBalance, ExtCall.depositBalance,
            ExtCall.incAllowance U256MAX] ++ Δl) ++ W⟩) := by
    by_cases hcE : 0 < cE
    · refine ⟨[ExtCall.withdraw cE], by simp [isWithdrawB], by simp [isRepayB],
        by simp, ?_⟩
      rw [if_pos hcE]
      simp [extCall]
    · refine ⟨[], by simp, by simp, by simp, ?_⟩
      rw [if_neg hcE]
      simp [M.pure_def]
  obtain ⟨W, hWw, hWr, hWtr, hWeq⟩ := hWex
  simp only [run_bind_ok hWeq] at h
  simp only [run_bind_ok (show query env ExtCall.borrowBalance
      ⟨{ s with locked := true },
        ([ExtCall.borrowBalance, ExtCall.depositBalance,
          ExtCall.incAllowance U256MAX] ++ Δl) ++ W⟩ =
      (Except.ok (env.respNat ((([ExtCall.borrowBalance, ExtCall.depositBalance,
          ExtCall.incAllowance U256MAX] ++ Δl) ++ W) ++ [ExtCall.borrowBalance])),
        ⟨{ s with locked := true },
          (([ExtCall.borrowBalance, ExtCall.depositBalance,
            ExtCall.incAllowance U256MAX] ++ Δl) ++ W) ++ [ExtCall.borrowBalance]⟩)
      from rfl)] at h
  by_cases hres : 0 < env.respNat ((([ExtCall.borrowBalance, ExtCall.depositBalance,
      ExtCall.incAllowance U256MAX] ++ Δl) ++ W) ++ [ExtCall.borrowBalance])
  · rw [if_pos hres, M.throw_def] at h
    injection h with h1 h2
    subst h1; subst h2
    refine ⟨?_, ?_, fun t ht hrp => rfl, fun u hu => Except.noConfusion hu⟩
    · simp only [List.countP_append, List.countP_cons, List.countP_nil, isWithdrawB,
        MAX_LOOPS]
      simp only [MAX_LOOPS] at hw
      simp
      omega
    · simp only [List.countP_append, List.countP_cons, List.countP_nil, isRepayB,
        MAX_LOOPS]
      simp only [MAX_LOOPS] at hr
      simp
      omega
  rw [if_neg hres] at h
  simp only [run_bind_ok (show readDebt sender
      ⟨{ s with locked := true },
        (([ExtCall.borrowBalance, ExtCall.depositBalance,
          ExtCall.incAllowance U256MAX] ++ Δl) ++ W) ++ [ExtCall.borrowBalance]⟩ =
      (Except.ok (s.userDebts sender),
        ⟨{ s with locked := true },
          (([ExtCall.borrowBalance, ExtCall.depositBalance,
            ExtCall.incAllowance U256MAX] ++ Δl) ++ W) ++ [ExtCall.borrowBalance]⟩)
      from rfl)] at h
  have hcountW : ∀ (tail : List ExtCall), tail.countP isWithdrawB = 0 →
      (((([ExtCall.borrowBalance, ExtCall.depositBalance,
        ExtCall.incAllowance U256MAX] ++ Δl) ++ W) ++ [ExtCall.borrowBalance])
        ++ tail).countP isWithdrawB ≤ MAX_LOOPS + 1 := by
    intro tail htail
    simp only [List.countP_append, List.countP_cons, List.countP_nil, isWithdrawB, htail]
    simp only [MAX_LOOPS] at hw ⊢
    simp
    omega
  have hcountR : ∀ (tail : List ExtCall), tail.countP isRepayB = 0 →
      (((([ExtCall.borrowBalance, ExtCall.depositBalance,
        ExtCall.incAllowance U256MAX] ++ Δl) ++ W) ++ [ExtCall.borrowBalance])
        ++ tail).countP isRepayB ≤ MAX_LOOPS := by
    intro tail htail
    simp only [List.countP_append, List.countP_cons, List.countP_nil, isRepayB, htail]
    simp only [MAX_LOOPS] at hr ⊢
    simp
    omega
  have hheadtr : ∀ x ∈ ([ExtCall.borrowBalance, ExtCall.depositBalance,
      ExtCall.incAllowance U256MAX] ++ Δl) ++ W, ∀ a b, x ≠ ExtCall.transfer a b := by
    intro x hx a b
    rcases List.mem_append.mp hx with hx | hx
    · rcases List.mem_append.mp hx with hx | hx
      · simp only [List.mem_cons, List.not_mem_nil, or_false] at hx
        rcases hx with rfl | rfl | rfl <;> simp
      · rcases hmem x hx with ⟨w, rfl⟩ | ⟨w, rfl⟩ <;> simp
    · exact hWtr x hx a b
  by_cases hBD : s.userDebts sender < s.userDeposits sender
  · rw [if_pos hBD] at h
    simp only [run_bind_ok (show liftE (safeSub (s.userDeposits sender) (s.userDebts sender))
        ⟨{ s with locked := true },
          (([ExtCall.borrowBalance, ExtCall.depositBalance,
            ExtCall.incAllowance U256MAX] ++ Δl) ++ W) ++ [ExtCall.borrowBalance]⟩ =
        (Except.ok (s.userDeposits sender - s.userDebts sender),
          ⟨{ s with locked := true },
            (([ExtCall.borrowBalance, ExtCall.depositBalance,
              ExtCall.incAllowance U256MAX] ++ Δl) ++ W) ++ [ExtCall.borrowBalance]⟩) by
      simp [liftE_def, safeSub, Nat.le_of_lt hBD])] at h
    have hPpos : 0 < s.userDeposits sender - s.userDebts sender := Nat.sub_pos_of_lt hBD
    rw [if_pos hPpos] at h
    have hPeq : netProceedsOf s sender = s.userDeposits sender - s.userDebts sender := by
      simp [netProceedsOf, hBD]
    rcases hxfee : feeRoundUp (s.userDeposits sender - s.userDebts sender) EXIT_FEE_BPS
      with e | F
    · simp only [run_bind_error (show liftE (feeRoundUp
          (s.userDeposits sender - s.userDebts sender) EXIT_FEE_BPS)
          ⟨{ s with locked := true },
            (([ExtCall.borrowBalance, ExtCall.depositBalance,
              ExtCall.incAllowance U256MAX] ++ Δl) ++ W) ++ [ExtCall.borrowBalance]⟩ =
          (Except.error e,
            ⟨{ s with locked := true },
              (([ExtCall.borrowBalance, ExtCall.depositBalance,
                ExtCall.incAllowance U256MAX] ++ Δl) ++ W) ++ [ExtCall.borrowBalance]⟩) by
        simp [liftE_def, hxfee])] at h
      injection h with h1 h2
      subst h1; subst h2
      refine ⟨by simpa using hcountW [] rfl, by simpa using hcountR [] rfl, ?_,
        fun u hu => Except.noConfusion hu⟩
      intro t ht hrp
      exact absurd hrp hres
    simp only [run_bind_ok (show liftE (feeRoundUp
        (s.userDeposits sender - s.userDebts sender) EXIT_FEE_BPS)
        ⟨{ s with locked := true },
          (([ExtCall.borrowBalance, ExtCall.depositBalance,
            ExtCall.incAllowance U256MAX] ++ Δl) ++ W) ++ [ExtCall.borrowBalance]⟩ =
        (Except.ok F,
          ⟨{ s with locked := true },
            (([ExtCall.borrowBalance, ExtCall.depositBalance,
              ExtCall.incAllowance U256MAX] ++ Δl) ++ W) ++ [ExtCall.borrowBalance]⟩) by
      simp [liftE_def, hxfee])] at h
    have hFle : F ≤ s.userDeposits sender - s.userDebts sender := exitFee_le hxfee
    have hFpos : 0 < F := exitFee_pos hPpos hxfee
    have hFeq : exitFeeOf s sender = F := by
      unfold exitFeeOf
      rw [hPeq, if_pos hPpos]
      exact (feeRoundUp_ok hxfee).symm
    simp only [run_bind_ok (show liftE (safeSub
        (s.userDeposits sender - s.userDebts sender) F)
        ⟨{ s with locked := true },
          (([ExtCall.borrowBalance, ExtCall.depositBalance,
            ExtCall.incAllowance U256MAX] ++ Δl) ++ W) ++ [ExtCall.borrowBalance]⟩ =
        (Except.ok (s.userDeposits sender - s.userDebts sender - F),
          ⟨{ s with locked := true },
            (([ExtCall.borrowBalance, ExtCall.depositBalance,
              ExtCall.incAllowance U256MAX] ++ Δl) ++ W) ++ [ExtCall.borrowBalance]⟩) by
      simp [liftE_def, safeSub, hFle])] at h
    rw [if_pos hFpos] at h
    simp only [M.bind_assoc] at h
    simp only [run_bind_ok (show readTreasury
        ⟨{ s with locked := true },
          (([ExtCall.borrowBalance, ExtCall.depositBalance,
            ExtCall.incAllowance U256MAX] ++ Δl) ++ W) ++ [ExtCall.borrowBalance]⟩ =
        (Except.ok s.treasury,
          ⟨{ s with locked := true },
            (([ExtCall.borrowBalance, ExtCall.depositBalance,
              ExtCall.incAllowance U256MAX] ++ Δl) ++ W) ++ [ExtCall.borrowBalance]⟩)
        from rfl)] at h
    by_cases hok2 : env.respOk ((((([ExtCall.borrowBalance, ExtCall.depositBalance,
        ExtCall.incAllowance U256MAX] ++ Δl) ++ W) ++ [ExtCall.borrowBalance]))
        ++ [ExtCall.transfer s.treasury F]) = true
    swap
    · simp only [run_bind_error (show tokenCall env (ExtCall.transfer s.treasury F)
          ⟨{ s with locked := true },
            (([ExtCall.borrowBalance, ExtCall.depositBalance,
              ExtCall.incAllowance U256MAX] ++ Δl) ++ W) ++ [ExtCall.borrowBalance]⟩ =
          (Except.error Err.TransferFailed,
            ⟨{ s with locked := true },
              ((([ExtCall.borrowBalance, ExtCall.depositBalance,
                ExtCall.incAllowance U256MAX] ++ Δl) ++ W) ++ [ExtCall.borrowBalance])
                ++ [ExtCall.transfer s.treasury F]⟩) by
        simp only [tokenCall]; rw [if_neg hok2])] at h
      injection h with h1 h2
      subst h1; subst h2
      have hcw := hcountW [ExtCall.transfer s.treasury F] (by simp [isWithdrawB])
      have hcr := hcountR [ExtCall.transfer s.treasury F] (by simp [isRepayB])
      refine ⟨by simpa using hcw, by simpa using hcr, ?_,
        fun u hu => Except.noConfusion hu⟩
      intro t ht _
      exact (snoc_ne_snoc (show ExtCall.transfer s.treasury F ≠ ExtCall.borrowBalance
        by simp) ht).elim
    simp only [run_bind_ok (show tokenCall env (ExtCall.transfer s.treasury F)
        ⟨{ s with locked := true },
          (([ExtCall.borrowBalance, ExtCall.depositBalance,
            ExtCall.incAllowance U256MAX] ++ Δl) ++ W) ++ [ExtCall.borrowBalance]⟩ =
        (Except.ok (),
          ⟨{ s with locked := true },
            ((([ExtCall.borrowBalance, ExtCall.depositBalance,
              ExtCall.incAllowance U256MAX] ++ Δl) ++ W) ++ [ExtCall.borrowBalance])
              ++ [ExtCall.transfer s.treasury F]⟩) by
      simp only [tokenCall]; first | rw [if_neg hok2] | rw [if_pos hok2])] at h
    simp only [run_bind_ok (show readFees
        ⟨{ s with locked := true },
          ((([ExtCall.borrowBalance, ExtCall.depositBalance,
            ExtCall.incAllowance U256MAX] ++ Δl) ++ W) ++ [ExtCall.borrowBalance])
            ++ [ExtCall.transfer s.treasury F]⟩ =
        (Except.ok s.totalFees,
          ⟨{ s with locked := true },
            ((([ExtCall.borrowBalance, ExtCall.depositBalance,
              ExtCall.incAllowance U256MAX] ++ Δl) ++ W) ++ [ExtCall.borrowBalance])
              ++ [ExtCall.transfer s.treasury F]⟩) from rfl)] at h
    by_cases hovf : s.totalFees + F ≤ U256MAX
    swap
    · simp only [run_bind_error (show liftE (safeAdd s.totalFees F)
          ⟨{ s with locked := true },
            ((([ExtCall.borrowBalance, ExtCall.depositBalance,
              ExtCall.incAllowance U256MAX] ++ Δl) ++ W) ++ [ExtCall.borrowBalance])
              ++ [ExtCall.transfer s.treasury F]⟩ =
          (Except.error Err.ArithmeticOverflow,
            ⟨{ s with locked := true },
              ((([ExtCall.borrowBalance, ExtCall.depositBalance,
                ExtCall.incAllowance U256MAX] ++ Δl) ++ W) ++ [ExtCall.borrowBalance])
                ++ [ExtCall.transfer s.treasury F]⟩) by
        simp [liftE_def, safeAdd, hovf])] at h
      injection h with h1 h2
      subst h1; subst h2
      have hcw := hcountW [ExtCall.transfer s.treasury F] (by simp [isWithdrawB])
      have hcr := hcountR [ExtCall.transfer s.treasury F] (by simp [isRepayB])
      refine ⟨by simpa using hcw, by simpa using hcr, ?_,
        fun u hu => Except.noConfusion hu⟩
      intro t ht _
      exact (snoc_ne_snoc (show ExtCall.transfer s.treasury F ≠ ExtCall.borrowBalance
        by simp) ht).elim
    simp only [run_bind_ok (show liftE (safeAdd s.totalFees F)
        ⟨{ s with locked := true },
          ((([ExtCall.borrowBalance, ExtCall.depositBalance,
            ExtCall.incAllowance U256MAX] ++ Δl) ++ W) ++ [ExtCall.borrowBalance])
            ++ [ExtCall.transfer s.treasury F]⟩ =
        (Except.ok (s.totalFees + F),
          ⟨{ s with locked := true },
            ((([ExtCall.borrowBalance, ExtCall.depositBalance,
              ExtCall.incAllowance U256MAX] ++ Δl) ++ W) ++ [ExtCall.borrowBalance])
              ++ [ExtCall.transfer s.treasury F]⟩) by
      simp [liftE_def, safeAdd, hovf])] at h
    simp only [run_bind_ok (show writeFees (s.totalFees + F)
        ⟨{ s with locked := true },
          ((([ExtCall.borrowBalance, ExtCall.depositBalance,
            ExtCall.incAllowance U256MAX] ++ Δl) ++ W) ++ [ExtCall.borrowBalance])
            ++ [ExtCall.transfer s.treasury F]⟩ =
        (Except.ok (),
          ⟨{ s with locked := true, totalFees := s.totalFees + F },
            ((([ExtCall.borrowBalance, ExtCall.depositBalance,
              ExtCall.incAllowance U256MAX] ++ Δl) ++ W) ++ [ExtCall.borrowBalance])
              ++ [ExtCall.transfer s.treasury F]⟩) from rfl)] at h
    by_cases hU : 0 < s.userDeposits sender - s.userDebts sender - F
    · rw [if_pos hU] at h
      by_cases hok3 : env.respOk (((((([ExtCall.borrowBalance, ExtCall.depositBalance,
          ExtCall.incAllowance U256MAX] ++ Δl) ++ W) ++ [ExtCall.borrowBalance])
          ++ [ExtCall.transfer s.treasury F]))
          ++ [ExtCall.transfer sender (s.userDeposits sender - s.userDebts sender - F)])
          = true
      swap
      · simp only [run_bind_error (show tokenCall env
            (ExtCall.transfer sender (s.userDeposits sender - s.userDebts sender - F))
            ⟨{ s with locked := true, totalFees := s.totalFees + F },
              ((([ExtCall.borrowBalance, ExtCall.depositBalance,
                ExtCall.incAllowance U256MAX] ++ Δl) ++ W) ++ [ExtCall.borrowBalance])
                ++ [ExtCall.transfer s.treasury F]⟩ =
            (Except.error Err.TransferFailed,
              ⟨{ s with locked := true, totalFees := s.totalFees + F },
                (((([ExtCall.borrowBalance, ExtCall.depositBalance,
                  ExtCall.incAllowance U256MAX] ++ Δl) ++ W) ++ [ExtCall.borrowBalance])
                  ++ [ExtCall.transfer s.treasury F])
                  ++ [ExtCall.transfer sender
                    (s.userDeposits sender - s.userDebts sender - F)]⟩) by
          simp only [tokenCall]; rw [if_neg hok3])] at h
        injection h with h1 h2
        subst h1; subst h2
        have hcw := hcountW [ExtCall.transfer s.treasury F,
          ExtCall.transfer sender (s.userDeposits sender - s.userDebts sender - F)]
          (by simp [isWithdrawB])
        have hcr := hcountR [ExtCall.transfer s.treasury F,
          ExtCall.transfer sender (s.userDeposits sender - s.userDebts sender - F)]
          (by simp [isRepayB])
        refine ⟨by simpa using hcw, by simpa using hcr, ?_,
          fun u hu => Except.noConfusion hu⟩
        intro t ht _
        exact (snoc_ne_snoc (show ExtCall.transfer sender
          (s.userDeposits sender - s.userDebts sender - F) ≠ ExtCall.borrowBalance
          by simp) ht).elim
      simp only [run_bind_ok (show tokenCall env
          (ExtCall.transfer sender (s.userDeposits sender - s.userDebts sender - F))
          ⟨{ s with locked := true, totalFees := s.totalFees + F },
            ((([ExtCall.borrowBalance, ExtCall.depositBalance,
              ExtCall.incAllowance U256MAX] ++ Δl) ++ W) ++ [ExtCall.borrowBalance])
              ++ [ExtCall.transfer s.treasury F]⟩ =
          (Except.ok (),
            ⟨{ s with locked := true, totalFees := s.totalFees + F },
              (((([ExtCall.borrowBalance, ExtCall.depositBalance,
                ExtCall.incAllowance U256MAX] ++ Δl) ++ W) ++ [ExtCall.borrowBalance])
                ++ [ExtCall.transfer s.treasury F])
                ++ [ExtCall.transfer sender
                  (s.userDeposits sender - s.userDebts sender - F)]⟩) by
        simp only [tokenCall]; first | rw [if_neg hok3] | rw [if_pos hok3])] at h
      simp only [run_bind_ok (show (pure
          (F, s.userDeposits sender - s.userDebts sender - F) : M (Nat × Nat))
          ⟨{ s with locked := true, totalFees := s.totalFees + F },
            (((([ExtCall.borrowBalance, ExtCall.depositBalance,
              ExtCall.incAllowance U256MAX] ++ Δl) ++ W) ++ [ExtCall.borrowBalance])
              ++ [ExtCall.transfer s.treasury F])
              ++ [ExtCall.transfer sender
                (s.userDeposits sender - s.userDebts sender - F)]⟩ =
          (Except.ok (F, s.userDeposits sender - s.userDebts sender - F),
            ⟨{ s with locked := true, totalFees := s.totalFees + F },
              (((([ExtCall.borrowBalance, ExtCall.depositBalance,
                ExtCall.incAllowance U256MAX] ++ Δl) ++ W) ++ [ExtCall.borrowBalance])
                ++ [ExtCall.transfer s.treasury F])
                ++ [ExtCall.transfer sender
                  (s.userDeposits sender - s.userDebts sender - F)]⟩) from rfl)] at h
      rw [close_tail_run env sender { s with locked := true, totalFees := s.totalFees + F }
        ((((([ExtCall.borrowBalance, ExtCall.depositBalance,
          ExtCall.incAllowance U256MAX] ++ Δl) ++ W) ++ [ExtCall.borrowBalance])
          ++ [ExtCall.transfer s.treasury F])
          ++ [ExtCall.transfer sender
            (s.userDeposits sender - s.userDebts sender - F)])] at h
      by_cases hok4 : env.respOk ((((((([ExtCall.borrowBalance, ExtCall.depositBalance,
          ExtCall.incAllowance U256MAX] ++ Δl) ++ W) ++ [ExtCall.borrowBalance])
          ++ [ExtCall.transfer s.treasury F])
          ++ [ExtCall.transfer sender (s.userDeposits sender - s.userDebts sender - F)]))
          ++ [ExtCall.decAllowance U256MAX]) = true
      · rw [if_pos hok4] at h
        injection h with h1 h2
        subst h1; subst h2
        have hcw := hcountW [ExtCall.transfer s.treasury F,
          ExtCall.transfer sender (s.userDeposits sender - s.userDebts sender - F),
          ExtCall.decAllowance U256MAX] (by simp [isWithdrawB])
        have hcr := hcountR [ExtCall.transfer s.treasury F,
          ExtCall.transfer sender (s.userDeposits sender - s.userDebts sender - F),
          ExtCall.decAllowance U256MAX] (by simp [isRepayB])
        refine ⟨by simpa using hcw, by simpa using hcr, ?_, ?_⟩
        · intro t ht _
          exact (snoc_ne_snoc (show ExtCall.decAllowance U256MAX ≠ ExtCall.borrowBalance
            by simp) ht).elim
        · intro u _
          refine ⟨by simpa using hl, hD, by simpa using hAct, ?_, ?_,
            ([ExtCall.borrowBalance, ExtCall.depositBalance,
              ExtCall.incAllowance U256MAX] ++ Δl) ++ W, hheadtr, by omega, ?_⟩
          · intro h0
            rw [hPeq, hFeq]
            exact hxfee
          · rw [hFeq]
          · rw [hFeq, hPeq, if_pos hFpos, if_pos hU]
            simp
      · rw [if_neg hok4] at h
        injection h with h1 h2
        subst h1; subst h2
        have hcw := hcountW [ExtCall.transfer s.treasury F,
          ExtCall.transfer sender (s.userDeposits sender - s.userDebts sender - F),
          ExtCall.decAllowance U256MAX] (by simp [isWithdrawB])
        have hcr := hcountR [ExtCall.transfer s.treasury F,
          ExtCall.transfer sender (s.userDeposits sender - s.userDebts sender - F),
          ExtCall.decAllowance U256MAX] (by simp [isRepayB])
        refine ⟨by simpa using hcw, by simpa using hcr, ?_,
          fun u hu => Except.noConfusion hu⟩
        intro t ht _
        exact (snoc_ne_snoc (show ExtCall.decAllowance U256MAX ≠ ExtCall.borrowBalance
          by simp) ht).elim
    · rw [if_neg hU] at h
      simp only [run_bind_ok (show (pure () : M Unit)
          ⟨{ s with locked := true, totalFees := s.totalFees + F },
            ((([ExtCall.borrowBalance, ExtCall.depositBalance,
              ExtCall.incAllowance U256MAX] ++ Δl) ++ W) ++ [ExtCall.borrowBalance])
              ++ [ExtCall.transfer s.treasury F]⟩ =
          (Except.ok (),
            ⟨{ s with locked := true, totalFees := s.totalFees + F },
              ((([ExtCall.borrowBalance, ExtCall.depositBalance,
                ExtCall.incAllowance U256MAX] ++ Δl) ++ W) ++ [ExtCall.borrowBalance])
                ++ [ExtCall.transfer s.treasury F]⟩) from rfl)] at h
      simp only [run_bind_ok (show (pure
          (F, s.userDeposits sender - s.userDebts sender - F) : M (Nat × Nat))
          ⟨{ s with locked := true, totalFees := s.totalFees + F },
            ((([ExtCall.borrowBalance, ExtCall.depositBalance,
              ExtCall.incAllowance U256MAX] ++ Δl) ++ W) ++ [ExtCall.borrowBalance])
              ++ [ExtCall.transfer s.treasury F]⟩ =
          (Except.ok (F, s.userDeposits sender - s.userDebts sender - F),
            ⟨{ s with locked := true, totalFees := s.totalFees + F },
              ((([ExtCall.borrowBalance, ExtCall.depositBalance,
                ExtCall.incAllowance U256MAX] ++ Δl) ++ W) ++ [ExtCall.borrowBalance])
                ++ [ExtCall.transfer s.treasury F]⟩) from rfl)] at h
      rw [close_tail_run env sender { s with locked := true, totalFees := s.totalFees + F }
        (((([ExtCall.borrowBalance, ExtCall.depositBalance,
          ExtCall.incAllowance U256MAX] ++ Δl) ++ W) ++ [ExtCall.borrowBalance])
          ++ [ExtCall.transfer s.treasury F])] at h
      by_cases hok4 : env.respOk (((((([ExtCall.borrowBalance, ExtCall.depositBalance,
          ExtCall.incAllowance U256MAX] ++ Δl) ++ W) ++ [ExtCall.borrowBalance])
          ++ [ExtCall.transfer s.treasury F]))
          ++ [ExtCall.decAllowance U256MAX]) = true
      · rw [if_pos hok4] at h
        injection h with h1 h2
        subst h1; subst h2
        have hcw := hcountW [ExtCall.transfer s.treasury F,
          ExtCall.decAllowance U256MAX] (by simp [isWithdrawB])
        have hcr := hcountR [ExtCall.transfer s.treasury F,
          ExtCall.decAllowance U256MAX] (by simp [isRepayB])
        refine ⟨by simpa using hcw, by simpa using hcr, ?_, ?_⟩
        · intro t ht _
          exact (snoc_ne_snoc (show ExtCall.decAllowance U256MAX ≠ ExtCall.borrowBalance
            by simp) ht).elim
        · intro u _
          refine ⟨by simpa using hl, hD, by simpa using hAct, ?_, ?_,
            ([ExtCall.borrowBalance, ExtCall.depositBalance,
              ExtCall.incAllowance U256MAX] ++ Δl) ++ W, hheadtr, by omega, ?_⟩
          · intro h0
            rw [hPeq, hFeq]
            exact hxfee
          · rw [hFeq]
          · rw [hFeq, hPeq, if_pos hFpos, if_neg hU]
            simp
      · rw [if_neg hok4] at h
        injection h with h1 h2
        subst h1; subst h2
        have hcw := hcountW [ExtCall.transfer s.treasury F,
          ExtCall.decAllowance U256MAX] (by simp [isWithdrawB])
        have hcr := hcountR [ExtCall.transfer s.treasury F,
          ExtCall.decAllowance U256MAX] (by simp [isRepayB])
        refine ⟨by simpa using hcw, by simpa using hcr, ?_,
          fun u hu => Except.noConfusion hu⟩
        intro t ht _
        exact (snoc_ne_snoc (show ExtCall.decAllowance U256MAX ≠ ExtCall.borrowBalance
          by simp) ht).elim
  · rw [if_neg hBD] at h
    simp only [run_bind_ok (show (pure 0 : M Nat)
        ⟨{ s with locked := true },
          (([ExtCall.borrowBalance, ExtCall.depositBalance,
            ExtCall.incAllowance U256MAX] ++ Δl) ++ W) ++ [ExtCall.borrowBalance]⟩ =
        (Except.ok 0,
          ⟨{ s with locked := true },
            (([ExtCall.borrowBalance, ExtCall.depositBalance,
              ExtCall.incAllowance U256MAX] ++ Δl) ++ W) ++ [ExtCall.borrowBalance]⟩)
        from rfl)] at h
    rw [if_neg (by omega : ¬(0 : Nat) < 0)] at h
    simp only [run_bind_ok (show (pure ((0 : Nat), (0 : Nat)) : M (Nat × Nat))
        ⟨{ s with locked := true },
          (([ExtCall.borrowBalance, ExtCall.depositBalance,
            ExtCall.incAllowance U256MAX] ++ Δl) ++ W) ++ [ExtCall.borrowBalance]⟩ =
        (Except.ok ((0 : Nat), (0 : Nat)),
          ⟨{ s with locked := true },
            (([ExtCall.borrowBalance, ExtCall.depositBalance,
              ExtCall.incAllowance U256MAX] ++ Δl) ++ W) ++ [ExtCall.borrowBalance]⟩)
        from rfl)] at h
    have hP0 : netProceedsOf s sender = 0 := by
      simp [netProceedsOf, hBD]
    have hF0 : exitFeeOf s sender = 0 := by
      simp [exitFeeOf, hP0]
    rw [close_tail_run env sender { s with locked := true }
      ((([ExtCall.borrowBalance, ExtCall.depositBalance,
        ExtCall.incAllowance U256MAX] ++ Δl) ++ W) ++ [ExtCall.borrowBalance])] at h
    by_cases hok4 : env.respOk ((((([ExtCall.borrowBalance, ExtCall.depositBalance,
        ExtCall.incAllowance U256MAX] ++ Δl) ++ W) ++ [ExtCall.borrowBalance]))
        ++ [ExtCall.decAllowance U256MAX]) = true
    · rw [if_pos hok4] at h
      injection h with h1 h2
      subst h1; subst h2
      have hcw := hcountW [ExtCall.decAllowance U256MAX] (by simp [isWithdrawB])
      have hcr := hcountR [ExtCall.decAllowance U256MAX] (by simp [isRepayB])
      refine ⟨by simpa using hcw, by simpa using hcr, ?_, ?_⟩
      · intro t ht _
        exact (snoc_ne_snoc (show ExtCall.decAllowance U256MAX ≠ ExtCall.borrowBalance
          by simp) ht).elim
      · intro u _
        refine ⟨by simpa using hl, hD, by simpa using hAct, ?_, ?_,
          ([ExtCall.borrowBalance, ExtCall.depositBalance,
            ExtCall.incAllowance U256MAX] ++ Δl) ++ W, hheadtr, by omega, ?_⟩
        · intro h0
          rw [hP0] at h0
          simp at h0
        · rw [hF0]
          rfl
        · rw [hF0, hP0]
          simp
    · rw [if_neg hok4] at h
      injection h with h1 h2
      subst h1; subst h2
      have hcw := hcountW [ExtCall.decAllowance U256MAX] (by simp [isWithdrawB])
      have hcr := hcountR [ExtCall.decAllowance U256MAX] (by simp [isRepayB])
      refine ⟨by simpa using hcw, by simpa using hcr, ?_,
        fun u hu => Except.noConfusion hu⟩
      intro t ht _
      exact (snoc_ne_snoc (show ExtCall.decAllowance U256MAX ≠ ExtCall.borrowBalance
        by simp) ht).elim

/-- A computation ignores the paused flag: running it with the flag
forced to any value changes nothing but the flag itself in the result. -/
def IP {α : Type} (f : M α) : Prop :=
  ∀ (p : Bool) (st : LoopState) (tr : List ExtCall),
    f ⟨{ st with paused := p }, tr⟩ =
      ((f ⟨st, tr⟩).1,
        ⟨{ (f ⟨st, tr⟩).2.st with paused := p }, (f ⟨st, tr⟩).2.tr⟩)

theorem ip_bind {α β : Type} {x : M α} {g : α → M β}
    (hx : IP x) (hg : ∀ a, IP (g a)) : IP (x >>= g) := by
  intro p st tr
  rcases hfx : x ⟨st, tr⟩ with ⟨rx, cx⟩
  rcases cx with ⟨stx, trx⟩
  have h1 := hx p st tr
  rw [hfx] at h1
  cases rx with
  | ok a =>
    have hL := run_bind_ok (f := g) h1
    have hR := run_bind_ok (f := g) hfx
    rw [hL, hR]
    exact hg a p stx trx
  | error e =>
    have hL := run_bind_error (f := g) h1
    have hR := run_bind_error (f := g) hfx
    rw [hL, hR]

theorem ip_ite {c : Prop} [Decidable c] {α : Type} {f g : M α}
    (hf : IP f) (hg : IP g) : IP (if c then f else g) := by
  by_cases h : c
  · rwa [if_pos h]
  · rwa [if_neg h]

theorem ip_pure {α : Type} (a : α) : IP (pure a : M α) := fun _ _ _ => rfl

theorem ip_throw {α : Type} (e : Err) : IP (M.throw e : M α) := fun _ _ _ => rfl

theorem ip_liftE {α : Type} (x : Except Err α) : IP (liftE x) := fun _ _ _ => rfl

theorem ip_readLocked : IP readLocked := fun _ _ _ => rfl

theorem ip_readActiveUser : IP readActiveUser := fun _ _ _ => rfl

theorem ip_readTreasury : IP readTreasury := fun _ _ _ => rfl

theorem ip_readFees : IP readFees := fun _ _ _ => rfl

theorem ip_readDeposit (a : Nat) : IP (readDeposit a) := fun _ _ _ => rfl

theorem ip_readDebt (a : Nat) : IP (readDebt a) := fun _ _ _ => rfl

theorem ip_writeLocked (b : Bool) : IP (writeLocked b) := fun _ _ _ => rfl

theorem ip_writeActiveUser (a : Nat) : IP (writeActiveUser a) := fun _ _ _ => rfl

theorem ip_writeFees (v : Nat) : IP (writeFees v) := fun _ _ _ => rfl

theorem ip_writeDeposit (a v : Nat) : IP (writeDeposit a v) := fun _ _ _ => rfl

theorem ip_writeDebt (a v : Nat) : IP (writeDebt a v) := fun _ _ _ => rfl

theorem ip_extCall (x : ExtCall) : IP (extCall x) := fun _ _ _ => rfl

theorem ip_query (env : Env) (x : ExtCall) : IP (query env x) := fun _ _ _ => rfl

theorem ip_tokenCall (env : Env) (x : ExtCall) : IP (tokenCall env x) := by
  intro p st tr
  unfold tokenCall
  by_cases hc : env.respOk (tr ++ [x]) = true
  · simp [hc]
  · simp [hc]

theorem ip_releaseGuard : IP releaseGuard := fun _ _ _ => rfl

theorem ip_nonReentrant : IP nonReentrant := by
  unfold nonReentrant
  exact ip_bind ip_readLocked fun l => ip_ite (ip_throw _) (ip_writeLocked _)

theorem ip_closeLoop (env : Env) (fuel d c : Nat) : IP (closeLoop env fuel d c) := by
  intro p st tr
  obtain ⟨Δ, d', c', hst, -, -, -⟩ := closeLoop_master env fuel d c tr
  rw [hst { st with paused := p }, hst st]

set_option maxRecDepth 4000 in
/-- closePosition never reads the paused flag: its entire behaviour is
independent of it. -/
theorem ip_closePosition (env : Env) (sender : Nat) : IP (closePosition env sender) := by
  unfold closePosition
  repeat
    first
    | exact ip_nonReentrant
    | exact ip_releaseGuard
    | exact ip_readActiveUser
    | exact ip_readTreasury
    | exact ip_readFees
    | exact ip_readDeposit _
    | exact ip_readDebt _
    | exact ip_writeActiveUser _
    | exact ip_writeFees _
    | exact ip_writeDeposit _ _
    | exact ip_writeDebt _ _
    | exact ip_extCall _
    | exact ip_liftE _
    | exact ip_tokenCall _ _
    | exact ip_query _ _
    | exact ip_closeLoop _ _ _ _
    | exact ip_pure _
    | exact ip_throw _
    | apply ip_bind
    | apply ip_ite
    | intro _

-- Concrete environments and storage states used by the witnesses.

/-- A pool that answers every maxBorrowable query with 5000 and every
other query (health factor included) with 0. -/
def wEnvHF : Env where
  respNat := fun t =>
    match t.getLast? with
    | some ExtCall.maxBorrowable => 5000
    | _ => 0
  respOk := fun _ => true

/-- A well-behaved pool: ample borrowing capacity and a healthy 2.0e18
health factor. -/
def wEnvOk : Env where
  respNat := fun t =>
    match t.getLast? with
    | some ExtCall.maxBorrowable => 1000000
    | some ExtCall.healthFactor => 2000000000000000000
    | _ => 0
  respOk := fun _ => true

/-- A pool with no outstanding debt and 80 units of collateral for the
engine. -/
def wEnvClose : Env where
  respNat := fun t =>
    match t.getLast? with
    | some ExtCall.depositBalance => 80
    | _ => 0
  respOk := fun _ => true

/-- A pool that keeps reporting 5 units of debt, so the unwind can never
complete. -/
def wEnvStuck : Env where
  respNat := fun t =>
    match t.getLast? with
    | some ExtCall.borrowBalance => 5
    | _ => 0
  respOk := fun _ => true

/-- Fresh storage: nothing active, empty maps. -/
def wStateEmpty : LoopState where
  paused := false
  locked := false
  treasury := 7
  activeUser := 0
  userDeposits := fun _ => 0
  userDebts := fun _ => 0
  totalFees := 0

/-- Storage with an open position: owner 5, stored deposit 1000, stored
debt 200. -/
def wStateClose : LoopState where
  paused := false
  locked := false
  treasury := 7
  activeUser := 5
  userDeposits := fun a => if a = 5 then 1000 else 0
  userDebts := fun a => if a = 5 then 200 else 0
  totalFees := 0

/-- Storage with a position held by address 9. -/
def wStateActive : LoopState where
  paused := false
  locked := false
  treasury := 7
  activeUser := 9
  userDeposits := fun a => if a = 9 then 100 else 0
  userDebts := fun _ => 0
  totalFees := 0

/-- C1: every healthFactor checkpoint of openPosition — after each
borrow and once after the loop — that is answered below the 1.5e18
minimum makes the whole invocation fail with HealthFactorTooLow; hence a
successful openPosition never observed a health factor below the
minimum at any checkpoint. -/
theorem C1_open_health_checkpoints :
    ∀ (env : Env) (s : LoopState) (sender amount lev : Nat) (t₁ t₂ : List ExtCall),
    (runOpen env s sender amount lev).2.tr = t₁ ++ ExtCall.healthFactor :: t₂ →
    env.respNat (t₁ ++ [ExtCall.healthFactor]) < MIN_HEALTH_FACTOR_E18 →
    (runOpen env s sender amount lev).1 = Except.error Err.HealthFactorTooLow := by
  intro env s sender amount lev t₁ t₂ htr hbad
  obtain ⟨-, -, hgt, -⟩ := open_master env s sender amount lev
    (runOpen env s sender amount lev).1 (runOpen env s sender amount lev).2 rfl
  rcases hgt with hg | he
  · have := hg t₁ t₂ htr
    omega
  · exact he

theorem C1_witness :
    (runOpen wEnvHF wStateEmpty 5 10000 2000000000000000000).2.tr =
      [ExtCall.transferFrom 5 contractAddr 10000, ExtCall.transfer 7 50,
        ExtCall.incAllowance U256MAX, ExtCall.deposit 9950, ExtCall.maxBorrowable,
        ExtCall.borrow 5000] ++ ExtCall.healthFactor :: [] ∧
    wEnvHF.respNat ([ExtCall.transferFrom 5 contractAddr 10000, ExtCall.transfer 7 50,
        ExtCall.incAllowance U256MAX, ExtCall.deposit 9950, ExtCall.maxBorrowable,
        ExtCall.borrow 5000] ++ [ExtCall.healthFactor]) < MIN_HEALTH_FACTOR_E18 ∧
    (runOpen wEnvHF wStateEmpty 5 10000 2000000000000000000).1 =
      Except.error Err.HealthFactorTooLow := by
  have h1 : (runOpen wEnvHF wStateEmpty 5 10000 2000000000000000000).2.tr =
      [ExtCall.transferFrom 5 contractAddr 10000, ExtCall.transfer 7 50,
        ExtCall.incAllowance U256MAX, ExtCall.deposit 9950, ExtCall.maxBorrowable,
        ExtCall.borrow 5000] ++ ExtCall.healthFactor :: [] := rfl
  have h2 : wEnvHF.respNat ([ExtCall.transferFrom 5 contractAddr 10000,
      ExtCall.transfer 7 50, ExtCall.incAllowance U256MAX, ExtCall.deposit 9950,
      ExtCall.maxBorrowable, ExtCall.borrow 5000] ++ [ExtCall.healthFactor]) <
      MIN_HEALTH_FACTOR_E18 := by decide
  exact ⟨h1, h2, C1_open_health_checkpoints wEnvHF wStateEmpty 5 10000
    2000000000000000000 _ [] h1 h2⟩

/-- C2: a closePosition whose residual borrowBalance re-query after the
unwind loop and the leftover withdrawal is non-zero fails with
UnwindIncomplete; and a successful closePosition saw a zero residual
debt re-query with no debt-affecting pool call after it, and leaves the
stored position fully cleared: owner reset to the zero address, stored
deposit and debt zero. -/
theorem C2_close_completeness :
    ∀ (env : Env) (s : LoopState) (sender : Nat),
    (∀ u ctx', runClose env s sender = (Except.ok u, ctx') →
      ctx'.st.activeUser = 0 ∧ ctx'.st.userDeposits sender = 0 ∧
      ctx'.st.userDebts sender = 0 ∧
      ∃ t₁ t₂, ctx'.tr = t₁ ++ ExtCall.borrowBalance :: t₂ ∧
        env.respNat (t₁ ++ [ExtCall.borrowBalance]) = 0 ∧
        ∀ x ∈ t₂, x ≠ ExtCall.borrowBalance ∧ (∀ a, x ≠ ExtCall.borrow a) ∧
          (∀ a, x ≠ ExtCall.repay a) ∧ (∀ a, x ≠ ExtCall.withdraw a) ∧
          (∀ a, x ≠ ExtCall.deposit a)) ∧
    (∀ t, (runClose env s sender).2.tr = t ++ [ExtCall.borrowBalance] →
      0 < env.respNat ((runClose env s sender).2.tr) →
      (runClose env s sender).1 = Except.error Err.UnwindIncomplete) := by
  intro env s sender
  constructor
  · intro u ctx' h
    obtain ⟨-, -, -, hok⟩ := close_master env s sender (Except.ok u) ctx' h
    obtain ⟨-, -, -, -, hst, tHead, hnotr, hresp, htr⟩ := hok u rfl
    refine ⟨by rw [hst], by rw [hst]; simp, by rw [hst]; simp, tHead,
      (if 0 < exitFeeOf s sender
        then [ExtCall.transfer s.treasury (exitFeeOf s sender)] else []) ++
      (if 0 < netProceedsOf s sender - exitFeeOf s sender
        then [ExtCall.transfer sender (netProceedsOf s sender - exitFeeOf s sender)]
        else []) ++ [ExtCall.decAllowance U256MAX], htr, hresp, ?_⟩
    intro x hx
    rcases List.mem_append.mp hx with hx | hx
    · rcases List.mem_append.mp hx with hx | hx
      · split at hx
        · simp only [List.mem_singleton] at hx
          subst hx
          refine ⟨by simp, by simp, by simp, by simp, by simp⟩
        · simp at hx
      · split at hx
        · simp only [List.mem_singleton] at hx
          subst hx
          refine ⟨by simp, by simp, by simp, by simp, by simp⟩
        · simp at hx
    · simp only [List.mem_singleton] at hx
      subst hx
      refine ⟨by simp, by simp, by simp, by simp, by simp⟩
  · intro t ht hpos
    obtain ⟨-, -, hclause, -⟩ := close_master env s sender
      (runClose env s sender).1 (runClose env s sender).2 rfl
    exact hclause t ht hpos

theorem C2_witness :
    ((runClose wEnvClose wStateClose 5).1 = Except.ok () ∧
      ((runClose wEnvClose wStateClose 5).2.st.activeUser = 0 ∧
       (runClose wEnvClose wStateClose 5).2.st.userDeposits 5 = 0 ∧
       (runClose wEnvClose wStateClose 5).2.st.userDebts 5 = 0)) ∧
    ((runClose wEnvStuck wStateClose 5).2.tr =
      [ExtCall.borrowBalance, ExtCall.depositBalance, ExtCall.incAllowance U256MAX]
        ++ [ExtCall.borrowBalance] ∧
     0 < wEnvStuck.respNat ((runClose wEnvStuck wStateClose 5).2.tr) ∧
     (runClose wEnvStuck wStateClose 5).1 = Except.error Err.UnwindIncomplete) := by
  constructor
  · have h1 : (runClose wEnvClose wStateClose 5).1 = Except.ok () := rfl
    have hfull : runClose wEnvClose wStateClose 5 =
        (Except.ok (), (runClose wEnvClose wStateClose 5).2) := by
      rw [← h1]
    have h2 := (C2_close_completeness wEnvClose wStateClose 5).1 () _ hfull
    exact ⟨h1, h2.1, h2.2.1, h2.2.2.1⟩
  · have ht : (runClose wEnvStuck wStateClose 5).2.tr =
        [ExtCall.borrowBalance, ExtCall.depositBalance, ExtCall.incAllowance U256MAX]
          ++ [ExtCall.borrowBalance] := rfl
    have hp : 0 < wEnvStuck.respNat ((runClose wEnvStuck wStateClose 5).2.tr) := by decide
    exact ⟨ht, hp, (C2_close_completeness wEnvStuck wStateClose 5).2 _ ht hp⟩

/-- C3 counterexample: the documented dust boundary is wrong on the
code: feeRoundUp rounds 199 up to a fee of 1, not 0. -/
theorem C3_dust_counterexample : feeRoundUp 199 50 ≠ Except.ok 0 := by
  rw [show feeRoundUp 199 50 = Except.ok 1 from rfl]
  intro h
  injection h with h
  exact absurd h (by omega)

/-- C3 (amended): ceilFee( -, 50) is non-decreasing, positive for every
amount at or above 200 (indeed for every positive amount), and the value
at the documented boundary 199 is 1, not 0: round-up makes even dust
amounts pay one unit, and the fee is zero only at amount zero. -/
theorem C3_fee_monotonicity :
    (∀ a b fa fb, a ≤ b → feeRoundUp a 50 = Except.ok fa →
      feeRoundUp b 50 = Except.ok fb → fa ≤ fb) ∧
    (∀ a f, 200 ≤ a → feeRoundUp a 50 = Except.ok f → 0 < f) ∧
    feeRoundUp 199 50 = Except.ok 1 := by
  refine ⟨?_, ?_, rfl⟩
  · intro a b fa fb hab ha hb
    have h1 := feeRoundUp_ok ha
    have h2 := feeRoundUp_ok hb
    simp only [FEE_BASIS] at h1 h2
    omega
  · intro a f h200 hf
    have h1 := feeRoundUp_ok hf
    simp only [FEE_BASIS] at h1
    omega

theorem C3_witness :
    ((3 : Nat) ≤ 5 ∧ (1 : Nat) ≤ 1) ∧ ((200 : Nat) ≤ 200 ∧ (0 : Nat) < 1) := by
  have hmono := C3_fee_monotonicity.1 3 5 1 1 (by omega)
    (by rfl) (by rfl)
  have hpos := C3_fee_monotonicity.2.1 200 1 (by omega) (by rfl)
  exact ⟨⟨by omega, hmono⟩, ⟨by omega, hpos⟩⟩

/-- At most one address holds a position: every address with a non-zero
stored deposit or debt is the (non-zero) active user. -/
def Inv (s : LoopState) : Prop :=
  ∀ a, (s.userDeposits a ≠ 0 ∨ s.userDebts a ≠ 0) → a = s.activeUser ∧ s.activeUser ≠ 0

/-- C4: while a position is open (activeUser non-zero) openPosition can
never succeed, and with the earlier validation gates passing it fails
precisely with PositionAlreadyActive; moreover the single-position
invariant — every address with non-zero stored deposit or debt is the
unique active user — is preserved by openPosition and closePosition
under rollback semantics, and it entails that at most one address has
position data. -/
theorem C4_single_position :
    ∀ (env env2 : Env) (s : LoopState) (sender sender2 amount lev : Nat),
    (s.activeUser ≠ 0 → (runOpen env s sender amount lev).1 ≠ Except.ok ()) ∧
    (s.activeUser ≠ 0 → s.paused = false → s.locked = false →
      MIN_DEPOSIT ≤ amount → E18 ≤ lev → lev ≤ MAX_LEVERAGE_E18 →
      (runOpen env s sender amount lev).1 = Except.error Err.PositionAlreadyActive) ∧
    (Inv s → sender ≠ 0 →
      Inv (postState s (runOpen env s sender amount lev)) ∧
      Inv (postState s (runClose env2 s sender2))) ∧
    (∀ s2, Inv s2 → ∀ a b, (s2.userDeposits a ≠ 0 ∨ s2.userDebts a ≠ 0) →
      (s2.userDeposits b ≠ 0 ∨ s2.userDebts b ≠ 0) → a = b) := by
  intro env env2 s sender sender2 amount lev
  refine ⟨?_, ?_, ?_, ?_⟩
  · intro hact hok
    obtain ⟨-, -, -, hshape⟩ := open_master env s sender amount lev
      (runOpen env s sender amount lev).1 (runOpen env s sender amount lev).2 rfl
    obtain ⟨-, -, hzero, -⟩ := hshape () hok
    exact hact hzero
  · intro hact hp hl hmin hlo hhi
    have heq : runOpen env s sender amount lev =
        (Except.error Err.PositionAlreadyActive, ⟨{ s with locked := true }, []⟩) := by
      show openPosition env sender amount lev ⟨s, []⟩ = _
      rw [openPosition]
      rw [run_bind_ok (show whenNotPaused ⟨s, []⟩ = (Except.ok (), ⟨s, []⟩) by
        simp [whenNotPaused, readPaused, M.bind_def, M.pure_def, M.throw_def, hp])]
      rw [run_bind_ok (show nonReentrant ⟨s, []⟩ =
          (Except.ok (), ⟨{ s with locked := true }, []⟩) by
        simp [nonReentrant, readLocked, writeLocked, M.bind_def, M.pure_def,
          M.throw_def, hl])]
      rw [if_neg (by omega : ¬ amount < MIN_DEPOSIT)]
      rw [if_neg (by omega : ¬ MAX_LEVERAGE_E18 < lev)]
      rw [if_neg (by omega : ¬ lev < E18)]
      rw [run_bind_ok (show readActiveUser ⟨{ s with locked := true }, []⟩ =
          (Except.ok s.activeUser, ⟨{ s with locked := true }, []⟩) from rfl)]
      rw [if_pos hact]
      rfl
    rw [show (runOpen env s sender amount lev).1 = Except.error Err.PositionAlreadyActive
      by rw [heq]]
  · intro hInv hsender
    constructor
    · rcases hro : runOpen env s sender amount lev with ⟨ro, ctxo⟩
      cases ro with
      | error e => simpa [postState] using hInv
      | ok u =>
        obtain ⟨-, -, -, hshape⟩ := open_master env s sender amount lev
          (Except.ok u) ctxo hro
        obtain ⟨-, -, hzero, -, -, -, fee, td, tb, -, -, hst⟩ := hshape u rfl
        simp only [postState]
        rw [hst]
        intro a ha
        simp only at ha ⊢
        by_cases hax : a = sender
        · exact ⟨hax, hsender⟩
        · rw [Function.update_noteq hax, Function.update_noteq hax] at ha
          obtain ⟨-, h2⟩ := hInv a ha
          exact absurd hzero h2
    · rcases hrc : runClose env2 s sender2 with ⟨rc, ctxc⟩
      cases rc with
      | error e => simpa [postState] using hInv
      | ok u =>
        obtain ⟨-, -, -, hshape⟩ := close_master env2 s sender2 (Except.ok u) ctxc hrc
        obtain ⟨-, hdep, hown, -, hst, -⟩ := hshape u rfl
        simp only [postState]
        rw [hst]
        intro a ha
        simp only at ha
        by_cases hax : a = sender2
        · rw [hax, Function.update_same, Function.update_same] at ha
          rcases ha with ha | ha <;> exact absurd rfl ha
        · rw [Function.update_noteq hax, Function.update_noteq hax] at ha
          obtain ⟨h1, -⟩ := hInv a ha
          exact absurd (h1.trans hown) hax
  · intro s2 hI a b ha hb
    obtain ⟨h1, -⟩ := hI a ha
    obtain ⟨h2, -⟩ := hI b hb
    rw [h1, h2]

theorem C4_witness :
    (wStateActive.activeUser ≠ 0 ∧
      (runOpen wEnvOk wStateActive 5 10000 2000000000000000000).1 ≠ Except.ok ()) ∧
    (wStateActive.paused = false ∧ wStateActive.locked = false ∧
      MIN_DEPOSIT ≤ 10000 ∧ E18 ≤ 2000000000000000000 ∧
      2000000000000000000 ≤ MAX_LEVERAGE_E18 ∧
      (runOpen wEnvOk wStateActive 5 10000 2000000000000000000).1 =
        Except.error Err.PositionAlreadyActive) ∧
    (Inv wStateActive ∧ (5 : Nat) ≠ 0 ∧
      Inv (postState wStateActive (runOpen wEnvOk wStateActive 5 10000
        2000000000000000000)) ∧
      Inv (postState wStateActive (runClose wEnvClose wStateActive 9))) := by
  have hact : wStateActive.activeUser ≠ 0 := by decide
  have hInv : Inv wStateActive := by
    intro a ha
    by_cases h9 : a = 9
    · exact ⟨by rw [h9]; rfl, by decide⟩
    · exfalso
      simp only [wStateActive] at ha
      rw [if_neg h9] at ha
      rcases ha with ha | ha <;> exact ha rfl
  have h5 : (5 : Nat) ≠ 0 := by decide
  have hmain := C4_single_position wEnvOk wEnvClose wStateActive 5 9 10000
    2000000000000000000
  refine ⟨⟨hact, hmain.1 hact⟩,
    ⟨rfl, rfl, by decide, by decide, by decide,
      hmain.2.1 hact rfl rfl (by decide) (by decide) (by decide)⟩,
    hInv, h5, hmain.2.2.1 hInv h5⟩

/-- C5: the per-iteration withdrawal of the unwind loop is exactly
min(max(if storedDebt-balance d < collateral c and c/2 < c−d then c−d
else c/2, 1), c) — half the collateral, or only the excess over the
debt when that is smaller, floored at 1 and clamped to c — and one
iteration of the unwind loop with positive debt and collateral emits a
withdraw external call of exactly that amount first. -/
theorem C5_withdraw_amount :
    (∀ c d, 0 < c → 0 < d →
      withdrawAmountOf c d =
        Except.ok (min (max (if d < c ∧ c / 2 < c - d then c - d else c / 2) 1) c)) ∧
    (∀ (env : Env) fuel d c st tr, 0 < d → 0 < c →
      ∃ w Δ, withdrawAmountOf c d = Except.ok w ∧
        (closeLoop env (fuel + 1) d c ⟨st, tr⟩).2.tr = tr ++ ExtCall.withdraw w :: Δ) := by
  constructor
  · intro c d hc hd
    exact withdrawAmountOf_eq c d
  · intro env fuel d c st tr hd hc
    have hd0 : ¬ d = 0 := by omega
    have hc0 : ¬ c = 0 := by omega
    have hw := withdrawAmountOf_eq c d
    have hwv1 : 1 ≤ min (max (if d < c ∧ c / 2 < c - d then c - d else c / 2) 1) c := by
      split <;> omega
    have hwvc : min (max (if d < c ∧ c / 2 < c - d then c - d else c / 2) 1) c ≤ c :=
      Nat.min_le_right _ _
    set wv := min (max (if d < c ∧ c / 2 < c - d then c - d else c / 2) 1) c with hwvdef
    have hrpos : 0 < (if wv < d then wv else d) := by split <;> omega
    have hrled : (if wv < d then wv else d) ≤ d := by split <;> omega
    set rv := if wv < d then wv else d with hrvdef
    obtain ⟨Δ2, d2, c2, hst, -, -, -⟩ := closeLoop_master env fuel
      (d - rv) (c - wv) ((tr ++ [ExtCall.withdraw wv]) ++ [ExtCall.repay rv])
    refine ⟨wv, ExtCall.repay rv :: Δ2, hw, ?_⟩
    have hstep : closeLoop env (fuel + 1) d c ⟨st, tr⟩ =
        (Except.ok (d2, c2),
          ⟨st, ((tr ++ [ExtCall.withdraw wv]) ++ [ExtCall.repay rv]) ++ Δ2⟩) := by
      simp only [closeLoop]
      rw [if_neg hd0, if_neg hc0]
      simp only [M.bind_def, liftE_def, hw, extCall, ← hrvdef]
      rw [if_pos hrpos]
      simp only [M.bind_def, extCall, liftE_def, safeSub]
      rw [if_pos hrled, if_pos hwvc]
      simp only [M.bind_def]
      rw [hst st]
    rw [hstep]
    simp

theorem C5_witness :
    ((0 : Nat) < 10 ∧ (0 : Nat) < 3 ∧
      withdrawAmountOf 10 3 = Except.ok 7) ∧
    ((0 : Nat) < 3 ∧ (0 : Nat) < 10 ∧
      ∃ w Δ, withdrawAmountOf 10 3 = Except.ok w ∧
        (closeLoop wEnvOk 1 3 10 ⟨wStateEmpty, []⟩).2.tr =
          [] ++ ExtCall.withdraw w :: Δ) := by
  have h1 := C5_withdraw_amount.1 10 3 (by decide) (by decide)
  have h2 := C5_withdraw_amount.2 wEnvOk 0 3 10 wStateEmpty [] (by decide) (by decide)
  exact ⟨⟨by decide, by decide, by rw [h1]; rfl⟩, ⟨by decide, by decide, h2⟩⟩

/-- C6: a successful closePosition computes netProceeds from the STORED
snapshot — storedDeposit minus storedDebt when positive, else zero — and
charges the round-up exit fee (a·50 + 9999)/10000 on it (zero fee on
zero proceeds); the fee is added to totalFees, transferred to the
treasury only when non-zero, and the remainder netProceeds − fee goes to
the caller only when non-zero, after the residual-debt checkpoint. -/
theorem C6_close_proceeds :
    ∀ (env : Env) (s : LoopState) (sender : Nat) (u : Unit) (ctx' : Ctx),
    runClose env s sender = (Except.ok u, ctx') →
    ∃ P F tHead,
      P = (if s.userDebts sender < s.userDeposits sender
           then s.userDeposits sender - s.userDebts sender else 0) ∧
      (0 < P → feeRoundUp P EXIT_FEE_BPS = Except.ok F ∧
        F = (P * EXIT_FEE_BPS + (FEE_BASIS - 1)) / FEE_BASIS) ∧
      (P = 0 → F = 0) ∧
      ctx'.st.totalFees = s.totalFees + F ∧
      (∀ x ∈ tHead, ∀ a b, x ≠ ExtCall.transfer a b) ∧
      ctx'.tr = tHead ++ ExtCall.borrowBalance ::
        ((if 0 < F then [ExtCall.transfer s.treasury F] else []) ++
         (if 0 < P - F then [ExtCall.transfer sender (P - F)] else []) ++
         [ExtCall.decAllowance U256MAX]) := by
  intro env s sender u ctx' h
  obtain ⟨-, -, -, hok⟩ := close_master env s sender (Except.ok u) ctx' h
  obtain ⟨-, -, -, hfee, hst, tHead, hnotr, -, htr⟩ := hok u rfl
  refine ⟨netProceedsOf s sender, exitFeeOf s sender, tHead, rfl, ?_, ?_, ?_, hnotr, htr⟩
  · intro hP
    exact ⟨hfee hP, feeRoundUp_ok (hfee hP)⟩
  · intro hP
    simp [exitFeeOf, hP]
  · rw [hst]

theorem C6_witness :
    (runClose wEnvClose wStateClose 5).1 = Except.ok () ∧
    ∃ P F tHead,
      P = (if wStateClose.userDebts 5 < wStateClose.userDeposits 5
           then wStateClose.userDeposits 5 - wStateClose.userDebts 5 else 0) ∧
      (0 < P → feeRoundUp P EXIT_FEE_BPS = Except.ok F ∧
        F = (P * EXIT_FEE_BPS + (FEE_BASIS - 1)) / FEE_BASIS) ∧
      (P = 0 → F = 0) ∧
      (runClose wEnvClose wStateClose 5).2.st.totalFees = wStateClose.totalFees + F ∧
      (∀ x ∈ tHead, ∀ a b, x ≠ ExtCall.transfer a b) ∧
      (runClose wEnvClose wStateClose 5).2.tr = tHead ++ ExtCall.borrowBalance ::
        ((if 0 < F then [ExtCall.transfer wStateClose.treasury F] else []) ++
         (if 0 < P - F then [ExtCall.transfer 5 (P - F)] else []) ++
         [ExtCall.decAllowance U256MAX]) := by
  have h1 : (runClose wEnvClose wStateClose 5).1 = Except.ok () := rfl
  have hfull : runClose wEnvClose wStateClose 5 =
      (Except.ok (), (runClose wEnvClose wStateClose 5).2) := by
    rw [← h1]
  exact ⟨h1, C6_close_proceeds wEnvClose wStateClose 5 () _ hfull⟩

/-- C7: the leverage loop performs at most MAX_LOOPS = 5 deposit and 5
borrow external calls per openPosition invocation, and the unwind loop
at most 5 repay and 5 + 1 withdraw calls (the extra withdraw is the
leftover-collateral withdrawal after the loop) per closePosition
invocation, for every pool behavior. -/
theorem C7_loop_bound :
    ∀ (env : Env) (s : LoopState) (sender amount lev : Nat)
      (env2 : Env) (s2 : LoopState) (sender2 : Nat),
      (runOpen env s sender amount lev).2.tr.countP isDepositB ≤ MAX_LOOPS ∧
      (runOpen env s sender amount lev).2.tr.countP isBorrowB ≤ MAX_LOOPS ∧
      (runClose env2 s2 sender2).2.tr.countP isRepayB ≤ MAX_LOOPS ∧
      (runClose env2 s2 sender2).2.tr.countP isWithdrawB ≤ MAX_LOOPS + 1 := by
  intro env s sender amount lev env2 s2 sender2
  obtain ⟨h1, h2, -, -⟩ := open_master env s sender amount lev
    (runOpen env s sender amount lev).1 (runOpen env s sender amount lev).2 rfl
  obtain ⟨h4, h3, -, -⟩ := close_master env2 s2 sender2
    (runClose env2 s2 sender2).1 (runClose env2 s2 sender2).2 rfl
  exact ⟨h1, h2, h3, h4⟩

/-- C8: openPosition on paused storage fails immediately with Paused and
performs no external call, while closePosition is exempt from the pause
gate: its result and its external-call trace are identical whatever the
paused flag is set to. -/
theorem C8_pause_exemption :
    ∀ (env : Env) (s : LoopState) (sender amount lev : Nat) (p : Bool),
      ((runOpen env { s with paused := true } sender amount lev).1 =
        Except.error Err.Paused ∧
       (runOpen env { s with paused := true } sender amount lev).2.tr = []) ∧
      ((runClose env { s with paused := p } sender).1 =
        (runClose env s sender).1 ∧
       (runClose env { s with paused := p } sender).2.tr =
        (runClose env s sender).2.tr) := by
  intro env s sender amount lev p
  have h := ip_closePosition env sender p s []
  refine ⟨⟨rfl, rfl⟩, ?_, ?_⟩
  · show (closePosition env sender ⟨{ s with paused := p }, []⟩).1 =
      (closePosition env sender ⟨s, []⟩).1
    rw [h]
  · show (closePosition env sender ⟨{ s with paused := p }, []⟩).2.tr =
      (closePosition env sender ⟨s, []⟩).2.tr
    rw [h]

/-- C9: with the pause and reentrancy gates passing, openPosition
rejects amount < MIN_DEPOSIT with BelowMinimumDeposit before looking at
the leverage, and rejects leverage above 3e18 or below 1e18 with
LeverageOutOfRange, all before any external call is made. -/
theorem C9_input_validation :
    ∀ (env : Env) (s : LoopState) (sender amount lev : Nat),
    s.paused = false → s.locked = false →
    (amount < MIN_DEPOSIT →
      (runOpen env s sender amount lev).1 = Except.error Err.BelowMinimumDeposit ∧
      (runOpen env s sender amount lev).2.tr = []) ∧
    (MIN_DEPOSIT ≤ amount → MAX_LEVERAGE_E18 < lev →
      (runOpen env s sender amount lev).1 = Except.error Err.LeverageOutOfRange ∧
      (runOpen env s sender amount lev).2.tr = []) ∧
    (MIN_DEPOSIT ≤ amount → lev < E18 →
      (runOpen env s sender amount lev).1 = Except.error Err.LeverageOutOfRange ∧
      (runOpen env s sender amount lev).2.tr = []) := by
  intro env s sender amount lev hp hl
  have hpre : ∀ (k : M Unit),
      (whenNotPaused >>= fun _ => nonReentrant >>= fun _ => k) ⟨s, []⟩ =
      k ⟨{ s with locked := true }, []⟩ := by
    intro k
    rw [run_bind_ok (show whenNotPaused ⟨s, []⟩ = (Except.ok (), ⟨s, []⟩) by
      simp [whenNotPaused, readPaused, M.bind_def, M.pure_def, M.throw_def, hp])]
    rw [run_bind_ok (show nonReentrant ⟨s, []⟩ =
        (Except.ok (), ⟨{ s with locked := true }, []⟩) by
      simp [nonReentrant, readLocked, writeLocked, M.bind_def, M.pure_def,
        M.throw_def, hl])]
  refine ⟨?_, ?_, ?_⟩
  · intro hamt
    have heq : runOpen env s sender amount lev =
        (Except.error Err.BelowMinimumDeposit, ⟨{ s with locked := true }, []⟩) := by
      show openPosition env sender amount lev ⟨s, []⟩ = _
      rw [openPosition, hpre]
      rw [if_pos hamt]
      rfl
    exact ⟨by rw [heq], by rw [heq]⟩
  · intro hamt hhi
    have heq : runOpen env s sender amount lev =
        (Except.error Err.LeverageOutOfRange, ⟨{ s with locked := true }, []⟩) := by
      show openPosition env sender amount lev ⟨s, []⟩ = _
      rw [openPosition, hpre]
      rw [if_neg (by omega : ¬ amount < MIN_DEPOSIT)]
      rw [if_pos hhi]
      rfl
    exact ⟨by rw [heq], by rw [heq]⟩
  · intro hamt hlo
    have heq : runOpen env s sender amount lev =
        (Except.error Err.LeverageOutOfRange, ⟨{ s with locked := true }, []⟩) := by
      show openPosition env sender amount lev ⟨s, []⟩ = _
      rw [openPosition, hpre]
      rw [if_neg (by omega : ¬ amount < MIN_DEPOSIT)]
      rw [if_neg (show ¬ MAX_LEVERAGE_E18 < lev by
        simp only [MAX_LEVERAGE_E18]
        simp only [E18] at hlo
        omega)]
      rw [if_pos hlo]
      rfl
    exact ⟨by rw [heq], by rw [heq]⟩

theorem C9_witness :
    (wStateEmpty.paused = false ∧ wStateEmpty.locked = false) ∧
    ((9999 : Nat) < MIN_DEPOSIT ∧
      (runOpen wEnvOk wStateEmpty 5 9999 1000000000000000000).1 =
        Except.error Err.BelowMinimumDeposit ∧
      (runOpen wEnvOk wStateEmpty 5 9999 1000000000000000000).2.tr = []) ∧
    (MIN_DEPOSIT ≤ 10000 ∧ MAX_LEVERAGE_E18 < 4000000000000000000 ∧
      (runOpen wEnvOk wStateEmpty 5 10000 4000000000000000000).1 =
        Except.error Err.LeverageOutOfRange ∧
      (runOpen wEnvOk wStateEmpty 5 10000 4000000000000000000).2.tr = []) ∧
    (MIN_DEPOSIT ≤ 10000 ∧ (12 : Nat) < E18 ∧
      (runOpen wEnvOk wStateEmpty 5 10000 12).1 =
        Except.error Err.LeverageOutOfRange ∧
      (runOpen wEnvOk wStateEmpty 5 10000 12).2.tr = []) := by
  have h1 := (C9_input_validation wEnvOk wStateEmpty 5 9999 1000000000000000000
    rfl rfl).1 (by decide)
  have h2 := (C9_input_validation wEnvOk wStateEmpty 5 10000 4000000000000000000
    rfl rfl).2.1 (by decide) (by decide)
  have h3 := (C9_input_validation wEnvOk wStateEmpty 5 10000 12
    rfl rfl).2.2 (by decide) (by decide)
  exact ⟨⟨rfl, rfl⟩, ⟨by decide, h1⟩, ⟨by decide, by decide, h2⟩,
    ⟨by decide, by decide, h3⟩⟩

/-- C10: the leverage loop maintains totalDeposited + currentAmount ≤
target as an invariant, so on success the final total deposit never
exceeds the target; in particular a successful openPosition stores a
position deposit bounded by floor((amount − entryFee) · leverage / 1e18)
— the implicit leverage cap. -/
theorem C10_leverage_cap :
    (∀ (env : Env) (target fuel td tb cur : Nat) (st : LoopState) (tr : List ExtCall)
      (r : Except Err (Nat × Nat)) (ctx' : Ctx),
      openLoop env target fuel td tb cur ⟨st, tr⟩ = (r, ctx') →
      td + cur ≤ target → ∀ p, r = Except.ok p → p.1 ≤ target) ∧
    (∀ (env : Env) (s : LoopState) (sender amount lev : Nat) (u : Unit) (ctx' : Ctx),
      runOpen env s sender amount lev = (Except.ok u, ctx') →
      ∃ fee, feeRoundUp amount ENTRY_FEE_BPS = Except.ok fee ∧
        ctx'.st.userDeposits sender ≤ (amount - fee) * lev / E18) := by
  constructor
  · intro env target fuel td tb cur st tr r ctx' h hle p hp
    obtain ⟨Δ, r2, hst, -, -, -, hinv⟩ := openLoop_master env target fuel td tb cur tr
    have h2 := hst st
    rw [h] at h2
    injection h2 with hr hc
    rw [hr] at hp
    exact hinv hle p hp
  · intro env s sender amount lev u ctx' h
    obtain ⟨-, -, -, hshape⟩ := open_master env s sender amount lev (Except.ok u) ctx' h
    obtain ⟨-, -, -, -, -, -, fee, td, tb, hfee, htd, hst⟩ := hshape u rfl
    refine ⟨fee, hfee, ?_⟩
    rw [hst]
    show Function.update s.userDeposits sender td sender ≤ _
    rw [Function.update_same]
    exact htd

theorem C10_witness :
    (openLoop wEnvOk 10 0 5 0 1 ⟨wStateEmpty, []⟩ =
        (Except.ok ((5 : Nat), (0 : Nat)), ⟨wStateEmpty, []⟩) ∧
      (5 : Nat) + 1 ≤ 10 ∧ (5 : Nat) ≤ 10) ∧
    ((runOpen wEnvOk wStateEmpty 5 10000 2000000000000000000).1 = Except.ok () ∧
      ∃ fee, feeRoundUp 10000 ENTRY_FEE_BPS = Except.ok fee ∧
        (runOpen wEnvOk wStateEmpty 5 10000 2000000000000000000).2.st.userDeposits 5 ≤
          (10000 - fee) * 2000000000000000000 / E18) := by
  have ha : openLoop wEnvOk 10 0 5 0 1 ⟨wStateEmpty, []⟩ =
      (Except.ok ((5 : Nat), (0 : Nat)), ⟨wStateEmpty, []⟩) := rfl
  have hb := C10_leverage_cap.1 wEnvOk 10 0 5 0 1 wStateEmpty [] _ _ ha
    (by decide) (5, 0) rfl
  have h1 : (runOpen wEnvOk wStateEmpty 5 10000 2000000000000000000).1 =
      Except.ok () := rfl
  have hfull : runOpen wEnvOk wStateEmpty 5 10000 2000000000000000000 =
      (Except.ok (), (runOpen wEnvOk wStateEmpty 5 10000 2000000000000000000).2) := by
    rw [← h1]
  have hc := C10_leverage_cap.2 wEnvOk wStateEmpty 5 10000 2000000000000000000 () _ hfull
  exact ⟨⟨ha, by decide, hb⟩, h1, hc⟩

end Looper
